import Mathlib

/-!
# Verification of the rljson node-sqlite adapter

Shallow embedding of the repository's `IoSqliteServer` persistence facade
(`src/io-sqlite-server.ts`) and of the `NodeSQLite` wrapper
(`src/node-sqlite.ts`), together with proofs and refutations of the
specification's claims.

JSON values are modelled by an inductive type; the platform's
`JSON.stringify` / `JSON.parse` pair (used by the column codec for
`json` / `jsonArray` columns) is modelled by an executable printer and a
fuel-based recursive-descent parser, with a proved round-trip theorem.
Numbers are modelled as integers (the claims under study do not depend on
floating-point behaviour).
-/

namespace IoSqlite

/-- A JSON value as exchanged through the facade: the model of the
`JsonValue` type of `@rljson/json`. -/
inductive JsonValue where
  | null : JsonValue
  | bool : Bool → JsonValue
  | num : Int → JsonValue
  | str : String → JsonValue
  | arr : List JsonValue → JsonValue
  | obj : List (String × JsonValue) → JsonValue
  deriving Repr

/-- A storage primitive, the model of node:sqlite's `SQLOutputValue`
union (`null | number | bigint | string | Uint8Array`).  Crucially this
union contains no JavaScript `Array`.  Blobs are omitted from the model:
the adapter only ever stores NULL, integers, and text (the outputs of
its column codec), so a `Uint8Array` never occurs in its result sets. -/
inductive SqlValue where
  | null : SqlValue
  | int : Int → SqlValue
  | text : String → SqlValue
  deriving Repr, DecidableEq

/-! ## Decimal printing and parsing of integers -/

/-- The decimal digit character for `n < 10`. -/
def digitChar (n : Nat) : Char := Char.ofNat (48 + n)

/-- Fueled accumulator loop producing the decimal digits of `n`. -/
def toDecAux : Nat → Nat → List Char → List Char
  | 0, _, acc => acc
  | fuel + 1, n, acc =>
    if n < 10 then digitChar n :: acc
    else toDecAux fuel (n / 10) (digitChar (n % 10) :: acc)

/-- Decimal digit string of a natural number, most significant first. -/
def toDec (n : Nat) : List Char := toDecAux (n + 1) n []

/-- Decimal rendering of an integer, as `JSON.stringify` renders an
integral JavaScript number. -/
def printInt (i : Int) : List Char :=
  if i < 0 then '-' :: toDec (-i).toNat else toDec i.toNat

/-- Greedily take decimal digits from the front of a character list. -/
def takeDigits : List Char → (List Char × List Char)
  | [] => ([], [])
  | c :: cs =>
    if c.isDigit then
      let p := takeDigits cs
      (c :: p.1, p.2)
    else ([], c :: cs)

/-- Value of a decimal digit string. -/
def decodeDigits (ds : List Char) : Nat :=
  ds.foldl (fun a c => a * 10 + (c.toNat - 48)) 0

theorem toDecAux_acc (fuel : Nat) :
    ∀ n acc, toDecAux fuel n acc = toDecAux fuel n [] ++ acc := by
  induction fuel with
  | zero => intro n acc; simp [toDecAux]
  | succ f ih =>
    intro n acc
    by_cases h : n < 10
    · simp [toDecAux, h]
    · simp only [toDecAux, if_neg h]
      rw [ih (n / 10) (digitChar (n % 10) :: acc),
          ih (n / 10) [digitChar (n % 10)]]
      simp

theorem digitChar_isDigit {n : Nat} (h : n < 10) : (digitChar n).isDigit := by
  interval_cases n <;> decide

theorem digitChar_toNat {n : Nat} (h : n < 10) : (digitChar n).toNat = 48 + n := by
  interval_cases n <;> decide

theorem toDec_digits (fuel : Nat) :
    ∀ n, n < 10 ^ fuel → ∀ c ∈ toDecAux fuel n [], c.isDigit := by
  induction fuel with
  | zero => intro n h c hc; simp [toDecAux] at hc
  | succ f ih =>
    intro n h c hc
    by_cases h10 : n < 10
    · simp [toDecAux, h10] at hc
      subst hc; exact digitChar_isDigit h10
    · simp only [toDecAux, if_neg h10] at hc
      rw [toDecAux_acc] at hc
      have hp : 10 ^ (f + 1) = 10 ^ f * 10 := pow_succ 10 f
      rcases List.mem_append.1 hc with h1 | h1
      · exact ih (n / 10) (by omega) c h1
      · simp at h1; subst h1
        have hm : n % 10 < 10 := Nat.mod_lt _ (by omega)
        exact digitChar_isDigit hm

theorem decodeDigits_append (ds : List Char) (d : Char) :
    decodeDigits (ds ++ [d]) = decodeDigits ds * 10 + (d.toNat - 48) := by
  simp [decodeDigits, List.foldl_append]

theorem toDec_val (fuel : Nat) :
    ∀ n, n < 10 ^ fuel → decodeDigits (toDecAux fuel n []) = n := by
  induction fuel with
  | zero =>
    intro n h
    have hn : n = 0 := by simpa using h
    simp [toDecAux, decodeDigits, hn]
  | succ f ih =>
    intro n h
    by_cases h10 : n < 10
    · simp [toDecAux, h10, decodeDigits]
      rw [digitChar_toNat h10]; omega
    · simp only [toDecAux, if_neg h10]
      rw [toDecAux_acc, decodeDigits_append]
      have hp : 10 ^ (f + 1) = 10 ^ f * 10 := pow_succ 10 f
      have hlt : n / 10 < 10 ^ f := by omega
      have hm : n % 10 < 10 := Nat.mod_lt _ (by omega)
      rw [ih (n / 10) hlt, digitChar_toNat hm]
      omega

theorem lt_ten_pow (n : Nat) : n < 10 ^ (n + 1) := by
  calc n < 2 ^ n := Nat.lt_two_pow n
    _ ≤ 10 ^ n := Nat.pow_le_pow_left (by omega) n
    _ ≤ 10 ^ (n + 1) := Nat.pow_le_pow_right (by omega) (by omega)

theorem toDec_all_digits (n : Nat) : ∀ c ∈ toDec n, c.isDigit :=
  toDec_digits (n + 1) n (lt_ten_pow n)

theorem toDec_decode (n : Nat) : decodeDigits (toDec n) = n :=
  toDec_val (n + 1) n (lt_ten_pow n)

theorem toDec_ne_nil (n : Nat) : toDec n ≠ [] := by
  unfold toDec
  cases fuel : n + 1 with
  | zero => omega
  | succ f =>
    by_cases h : n < 10
    · simp [toDecAux, h]
    · simp only [toDecAux, if_neg h]
      rw [toDecAux_acc]
      simp

theorem takeDigits_spec (ds : List Char) (hds : ∀ c ∈ ds, c.isDigit) :
    ∀ rest, (∀ c, rest.head? = some c → ¬ c.isDigit) →
      takeDigits (ds ++ rest) = (ds, rest) := by
  induction ds with
  | nil =>
    intro rest hrest
    cases rest with
    | nil => rfl
    | cons c cs =>
      have := hrest c rfl
      simp [takeDigits, this]
  | cons c cs ih =>
    intro rest hrest
    have hc : c.isDigit := hds c (by simp)
    have hrec := ih (fun x hx => hds x (by simp [hx])) rest hrest
    simp only [List.cons_append, takeDigits, if_pos hc, List.append_eq, hrec]

/-! ## String escaping, as performed by `JSON.stringify` -/

/-- Hexadecimal digit character (lowercase), for `n < 16`. -/
def hexDigit (n : Nat) : Char :=
  if n < 10 then digitChar n else Char.ofNat (87 + n)

/-- Value of a hexadecimal digit character. -/
def parseHexDigit (c : Char) : Option Nat :=
  if 48 ≤ c.toNat ∧ c.toNat ≤ 57 then some (c.toNat - 48)
  else if 97 ≤ c.toNat ∧ c.toNat ≤ 102 then some (c.toNat - 87)
  else if 65 ≤ c.toNat ∧ c.toNat ≤ 70 then some (c.toNat - 55)
  else none

/-- The escape sequence `JSON.stringify` emits for one character inside a
string literal: `\"` and `\\` for quote and backslash, the short escapes
for the five named control characters, `\u00xx` for the remaining control
characters, and the character itself otherwise. -/
def escChar (c : Char) : List Char :=
  if c = '"' then ['\\', '"']
  else if c = '\\' then ['\\', '\\']
  else if c = '\x08' then ['\\', 'b']
  else if c = '\t' then ['\\', 't']
  else if c = '\n' then ['\\', 'n']
  else if c = '\x0c' then ['\\', 'f']
  else if c = '\r' then ['\\', 'r']
  else if c.toNat < 32 then
    ['\\', 'u', '0', '0', hexDigit (c.toNat / 16), hexDigit (c.toNat % 16)]
  else [c]

/-- Escape every character of a string body. -/
def escList : List Char → List Char
  | [] => []
  | c :: cs => escChar c ++ escList cs

/-- Prepend an unescaped character to a string-body parse result. -/
def strCons (c : Char) (p : Option (List Char × List Char)) :
    Option (List Char × List Char) :=
  p.map (fun q => (c :: q.1, q.2))

/-- Parse the body of a JSON string literal (after the opening quote),
returning the unescaped characters and the input after the closing
quote.  Mirrors the string grammar accepted by `JSON.parse`. -/
def parseStrBody : List Char → Option (List Char × List Char)
  | [] => none
  | c :: cs =>
    if c = '"' then some ([], cs)
    else if c = '\\' then
      match cs with
      | [] => none
      | e :: cs2 =>
        if e = '"' then strCons '"' (parseStrBody cs2)
        else if e = '\\' then strCons '\\' (parseStrBody cs2)
        else if e = '/' then strCons '/' (parseStrBody cs2)
        else if e = 'b' then strCons '\x08' (parseStrBody cs2)
        else if e = 't' then strCons '\t' (parseStrBody cs2)
        else if e = 'n' then strCons '\n' (parseStrBody cs2)
        else if e = 'f' then strCons '\x0c' (parseStrBody cs2)
        else if e = 'r' then strCons '\r' (parseStrBody cs2)
        else if e = 'u' then
          match cs2 with
          | h1 :: h2 :: h3 :: h4 :: cs3 =>
            match parseHexDigit h1, parseHexDigit h2,
                  parseHexDigit h3, parseHexDigit h4 with
            | some a, some b, some x, some y =>
              strCons (Char.ofNat (((a * 16 + b) * 16 + x) * 16 + y))
                (parseStrBody cs3)
            | _, _, _, _ => none
          | _ => none
        else none
    else if c.toNat < 32 then none
    else strCons c (parseStrBody cs)

/-! ## The JSON printer (`JSON.stringify`) -/

mutual

/-- The compact serialization `JSON.stringify` produces for a value. -/
def printVal : JsonValue → List Char
  | .null => 'n' :: ['u', 'l', 'l']
  | .bool true => 't' :: ['r', 'u', 'e']
  | .bool false => 'f' :: ['a', 'l', 's', 'e']
  | .num i => printInt i
  | .str s => '"' :: (escList s.data ++ ['"'])
  | .arr xs => '[' :: printItems xs
  | .obj fs => '{' :: printFields fs

/-- Array items, including the closing bracket. -/
def printItems : List JsonValue → List Char
  | [] => [']']
  | [x] => printVal x ++ [']']
  | x :: y :: tl => printVal x ++ (',' :: printItems (y :: tl))

/-- Object members, including the closing brace. -/
def printFields : List (String × JsonValue) → List Char
  | [] => ['}']
  | [(k, v)] => '"' :: (escList k.data ++ ('"' :: ':' :: (printVal v ++ ['}'])))
  | (k, v) :: m :: tl =>
    '"' :: (escList k.data ++ ('"' :: ':' :: (printVal v ++ (',' :: printFields (m :: tl)))))

end

example : printVal (.arr [.num 1, .bool true]) = "[1,true]".data := by decide

example : printVal (.obj [("a", .str "x"), ("b", .arr [])]) =
    "\x7b\"a\":\"x\",\"b\":[]\x7d".data := by decide

/-! ## The JSON parser (`JSON.parse`) -/

/-- Parse a JSON number (integer form: the only form the printer emits). -/
def parseNum (cs : List Char) : Option (JsonValue × List Char) :=
  if cs.head? = some '-' then
    let p := takeDigits cs.tail
    if p.1.isEmpty then none
    else some (.num (-(decodeDigits p.1 : Int)), p.2)
  else
    let p := takeDigits cs
    if p.1.isEmpty then none
    else some (.num (decodeDigits p.1 : Int), p.2)

/-- Fueled recursive-descent parser for compact JSON.  The fuel decreases
on every recursive call; `(input length + 1)` fuel always suffices for
inputs produced by `printVal`.  Non-empty arrays and objects are parsed
one item at a time: after a comma the remaining items are parsed by
re-entering the parser on the input with the opening bracket put back. -/
def parseVal : Nat → List Char → Option (JsonValue × List Char)
  | 0, _ => none
  | fuel + 1, cs =>
    match cs with
    | [] => none
    | c :: r =>
      if c = 'n' then
        match r with
        | 'u' :: 'l' :: 'l' :: r2 => some (.null, r2)
        | _ => none
      else if c = 't' then
        match r with
        | 'r' :: 'u' :: 'e' :: r2 => some (.bool true, r2)
        | _ => none
      else if c = 'f' then
        match r with
        | 'a' :: 'l' :: 's' :: 'e' :: r2 => some (.bool false, r2)
        | _ => none
      else if c = '"' then
        (parseStrBody r).map (fun p => (.str ⟨p.1⟩, p.2))
      else if c = '[' then
        match r with
        | [] => none
        | d :: r1 =>
          if d = ']' then some (.arr [], r1)
          else
            (parseVal fuel (d :: r1)).bind (fun p =>
              match p.2 with
              | ']' :: r2 => some (.arr [p.1], r2)
              | ',' :: r2 =>
                (parseVal fuel ('[' :: r2)).bind (fun q =>
                  match q.1 with
                  | .arr xs => some (.arr (p.1 :: xs), q.2)
                  | _ => none)
              | _ => none)
      else if c = '{' then
        match r with
        | [] => none
        | d :: r1 =>
          if d = '}' then some (.obj [], r1)
          else if d = '"' then
            (parseStrBody r1).bind (fun kp =>
              match kp.2 with
              | ':' :: r2 =>
                (parseVal fuel r2).bind (fun p =>
                  match p.2 with
                  | '}' :: r3 => some (.obj [(⟨kp.1⟩, p.1)], r3)
                  | ',' :: r3 =>
                    (parseVal fuel ('{' :: r3)).bind (fun q =>
                      match q.1 with
                      | .obj fs => some (.obj ((⟨kp.1⟩, p.1) :: fs), q.2)
                      | _ => none)
                  | _ => none)
              | _ => none)
          else none
      else if c = '-' ∨ c.isDigit then parseNum (c :: r)
      else none

/-- Model of `JSON.stringify` as a `String`-level function. -/
def jsonStringify (v : JsonValue) : String := ⟨printVal v⟩

/-- Model of `JSON.parse` as a `String`-level function: `none` models a
thrown `SyntaxError`.  The whole input must be consumed. -/
def jsonParse (s : String) : Option JsonValue :=
  match parseVal (s.data.length + 1) s.data with
  | some (v, []) => some v
  | _ => none

example : jsonParse "\x7b\"a\":[1,-2,true,null],\"b\":\"x\"\x7d" =
    some (.obj [("a", .arr [.num 1, .num (-2), .bool true, .null]),
                ("b", .str "x")]) := rfl

example : jsonParse (jsonStringify (.arr [.obj [("k", .str "v\n")]])) =
    some (.arr [.obj [("k", .str "v\n")]]) := rfl

/-! ## Round trip: `jsonParse` inverts `jsonStringify` -/

theorem parseHexDigit_hexDigit {k : Nat} (h : k < 16) :
    parseHexDigit (hexDigit k) = some k := by
  interval_cases k <;> decide

theorem parseStrBody_escape (s : List Char) :
    ∀ rest, parseStrBody (escList s ++ ('"' :: rest)) = some (s, rest) := by
  induction s with
  | nil =>
    intro rest
    show parseStrBody ('"' :: rest) = some ([], rest)
    rw [parseStrBody.eq_def]
    simp
  | cons c tl ih =>
    intro rest
    have IH := ih rest
    show parseStrBody ((escChar c ++ escList tl) ++ ('"' :: rest)) = _
    rw [List.append_assoc]
    by_cases h1 : c = '"'
    · subst h1
      simp only [escChar, reduceIte, List.cons_append, List.nil_append]
      rw [parseStrBody.eq_def]
      simp [IH, strCons]
    · by_cases h2 : c = '\\'
      · subst h2
        simp only [escChar, reduceIte, List.cons_append, List.nil_append]
        rw [parseStrBody.eq_def]
        simp [IH, strCons]
      · by_cases h3 : c = '\x08'
        · subst h3
          simp only [escChar, reduceIte, List.cons_append, List.nil_append]
          rw [parseStrBody.eq_def]
          simp [IH, strCons]
        · by_cases h4 : c = '\t'
          · subst h4
            simp only [escChar, reduceIte, List.cons_append, List.nil_append]
            rw [parseStrBody.eq_def]
            simp [IH, strCons]
          · by_cases h5 : c = '\n'
            · subst h5
              simp only [escChar, reduceIte, List.cons_append, List.nil_append]
              rw [parseStrBody.eq_def]
              simp [IH, strCons]
            · by_cases h6 : c = '\x0c'
              · subst h6
                simp only [escChar, reduceIte, List.cons_append, List.nil_append]
                rw [parseStrBody.eq_def]
                simp [IH, strCons]
              · by_cases h7 : c = '\r'
                · subst h7
                  simp only [escChar, reduceIte, List.cons_append, List.nil_append]
                  rw [parseStrBody.eq_def]
                  simp [IH, strCons]
                · by_cases h8 : c.toNat < 32
                  · have hx : c.toNat / 16 < 16 := by omega
                    have hy : c.toNat % 16 < 16 := by omega
                    simp only [escChar, if_neg h1, if_neg h2, if_neg h3,
                      if_neg h4, if_neg h5, if_neg h6, if_neg h7, if_pos h8,
                      List.cons_append, List.nil_append]
                    rw [parseStrBody.eq_def]
                    have hval : ((0 * 16 + 0) * 16 + c.toNat / 16) * 16
                        + c.toNat % 16 = c.toNat := by omega
                    have h0 : parseHexDigit '0' = some 0 := by decide
                    simp [h0, parseHexDigit_hexDigit hx,
                      parseHexDigit_hexDigit hy, IH, strCons, hval]
                    have hdm : c.toNat / 16 * 16 + c.toNat % 16 = c.toNat := by
                      omega
                    rw [hdm, Char.ofNat_toNat]
                  · simp only [escChar, if_neg h1, if_neg h2, if_neg h3,
                      if_neg h4, if_neg h5, if_neg h6, if_neg h7, if_neg h8,
                      List.cons_append, List.nil_append]
                    rw [parseStrBody.eq_def]
                    simp [h1, h2, h8, IH, strCons]

theorem parseNum_print (i : Int) (rest : List Char)
    (hrest : ∀ c, rest.head? = some c → ¬ c.isDigit) :
    parseNum (printInt i ++ rest) = some (.num i, rest) := by
  by_cases hi : i < 0
  · have htd := takeDigits_spec (toDec (-i).toNat)
      (toDec_all_digits (-i).toNat) rest hrest
    simp only [printInt, if_pos hi, List.cons_append]
    simp only [parseNum, List.head?, List.tail, reduceIte, htd]
    have hne : toDec (-i).toNat ≠ [] := toDec_ne_nil _
    simp only [List.isEmpty_eq_true, hne, if_neg, ite_false]
    simp [toDec_decode]
    omega
  · have htd := takeDigits_spec (toDec i.toNat)
      (toDec_all_digits i.toNat) rest hrest
    simp only [printInt, if_neg hi]
    obtain ⟨d, ds, hd⟩ : ∃ d ds, toDec i.toNat = d :: ds := by
      cases h : toDec i.toNat with
      | nil => exact absurd h (toDec_ne_nil _)
      | cons d ds => exact ⟨d, ds, rfl⟩
    have hdd : d.isDigit := toDec_all_digits i.toNat d (by rw [hd]; simp)
    have hdne : ¬ ((toDec i.toNat ++ rest).head? = some '-') := by
      rw [hd]
      simp only [List.cons_append, List.head?]
      intro hcontra
      have : d = '-' := by injection hcontra
      subst this
      exact absurd hdd (by decide)
    simp only [parseNum, if_neg hdne, htd]
    have hne : toDec i.toNat ≠ [] := toDec_ne_nil _
    simp only [List.isEmpty_eq_true, hne, if_neg, ite_false]
    simp [toDec_decode]
    omega

theorem isDigit_ne {c : Char} (h : c.isDigit) :
    c ≠ 'n' ∧ c ≠ 't' ∧ c ≠ 'f' ∧ c ≠ '"' ∧ c ≠ '[' ∧ c ≠ '{' ∧
      c ≠ ']' ∧ c ≠ '}' := by
  refine ⟨?_, ?_, ?_, ?_, ?_, ?_, ?_, ?_⟩ <;>
    (intro hc; subst hc; exact absurd h (by decide))

theorem printInt_shape (i : Int) :
    ∃ c t, printInt i = c :: t ∧ (c = '-' ∨ c.isDigit) := by
  by_cases hi : i < 0
  · exact ⟨'-', toDec (-i).toNat, by simp [printInt, hi], Or.inl rfl⟩
  · obtain ⟨d, ds, hd⟩ : ∃ d ds, toDec i.toNat = d :: ds := by
      cases h : toDec i.toNat with
      | nil => exact absurd h (toDec_ne_nil _)
      | cons d ds => exact ⟨d, ds, rfl⟩
    refine ⟨d, ds, by simp [printInt, hi, hd], Or.inr ?_⟩
    exact toDec_all_digits i.toNat d (by rw [hd]; simp)

theorem printVal_shape (v : JsonValue) :
    ∃ c t, printVal v = c :: t ∧ c ≠ ']' ∧ c ≠ '}' := by
  cases v with
  | null => exact ⟨'n', _, rfl, by decide, by decide⟩
  | bool b =>
    cases b
    · exact ⟨'f', _, rfl, by decide, by decide⟩
    · exact ⟨'t', _, rfl, by decide, by decide⟩
  | num i =>
    obtain ⟨c, t, hct, hc⟩ := printInt_shape i
    refine ⟨c, t, by simp [printVal, hct], ?_, ?_⟩
    · rcases hc with hc | hc
      · subst hc; decide
      · exact (isDigit_ne hc).2.2.2.2.2.2.1
    · rcases hc with hc | hc
      · subst hc; decide
      · exact (isDigit_ne hc).2.2.2.2.2.2.2
  | str s => exact ⟨'"', _, rfl, by decide, by decide⟩
  | arr xs => exact ⟨'[', _, rfl, by decide, by decide⟩
  | obj fs => exact ⟨'{', _, rfl, by decide, by decide⟩

theorem printVal_length_pos (v : JsonValue) : 1 ≤ (printVal v).length := by
  obtain ⟨c, t, hct, -, -⟩ := printVal_shape v
  rw [hct]; simp

theorem boundary_cons {c : Char} (h : ¬ c.isDigit) (l : List Char) :
    ∀ x, ((c :: l).head? = some x) → ¬ x.isDigit := by
  intro x hx
  have : c = x := by injection hx
  subst this; exact h

theorem parseVal_null_eq (f : Nat) (r2 : List Char) :
    parseVal (f + 1) ('n' :: 'u' :: 'l' :: 'l' :: r2) = some (.null, r2) := rfl

theorem parseVal_true_eq (f : Nat) (r2 : List Char) :
    parseVal (f + 1) ('t' :: 'r' :: 'u' :: 'e' :: r2) = some (.bool true, r2) := rfl

theorem parseVal_false_eq (f : Nat) (r2 : List Char) :
    parseVal (f + 1) ('f' :: 'a' :: 'l' :: 's' :: 'e' :: r2) =
      some (.bool false, r2) := rfl

theorem parseVal_str_eq (f : Nat) (r : List Char) :
    parseVal (f + 1) ('"' :: r) =
      (parseStrBody r).map (fun p => (.str ⟨p.1⟩, p.2)) := rfl

theorem parseVal_arr_eq (f : Nat) (d : Char) (r1 : List Char) :
    parseVal (f + 1) ('[' :: d :: r1) =
      if d = ']' then some (.arr [], r1)
      else
        (parseVal f (d :: r1)).bind (fun p =>
          match p.2 with
          | ']' :: r2 => some (.arr [p.1], r2)
          | ',' :: r2 =>
            (parseVal f ('[' :: r2)).bind (fun q =>
              match q.1 with
              | .arr xs => some (.arr (p.1 :: xs), q.2)
              | _ => none)
          | _ => none) := rfl

theorem parseVal_obj_eq (f : Nat) (d : Char) (r1 : List Char) :
    parseVal (f + 1) ('{' :: d :: r1) =
      if d = '}' then some (.obj [], r1)
      else if d = '"' then
        (parseStrBody r1).bind (fun kp =>
          match kp.2 with
          | ':' :: r2 =>
            (parseVal f r2).bind (fun p =>
              match p.2 with
              | '}' :: r3 => some (.obj [(⟨kp.1⟩, p.1)], r3)
              | ',' :: r3 =>
                (parseVal f ('{' :: r3)).bind (fun q =>
                  match q.1 with
                  | .obj fs => some (.obj ((⟨kp.1⟩, p.1) :: fs), q.2)
                  | _ => none)
              | _ => none)
          | _ => none)
      else none := rfl

set_option maxHeartbeats 2000000 in
theorem parseVal_head_eq (f : Nat) (c : Char) (r : List Char)
    (h1 : c ≠ 'n') (h2 : c ≠ 't') (h3 : c ≠ 'f') (h4 : c ≠ '"')
    (h5 : c ≠ '[') (h6 : c ≠ '{') :
    parseVal (f + 1) (c :: r) =
      if c = '-' ∨ c.isDigit then parseNum (c :: r) else none := by
  rw [parseVal.eq_def]
  dsimp only
  rw [if_neg h1, if_neg h2, if_neg h3, if_neg h4, if_neg h5, if_neg h6]

theorem parseVal_print_aux :
    ∀ N (v : JsonValue), sizeOf v ≤ N →
      ∀ fuel rest, (printVal v).length < fuel →
        (∀ c, rest.head? = some c → ¬ c.isDigit) →
        parseVal fuel (printVal v ++ rest) = some (v, rest) := by
  intro N
  induction N with
  | zero =>
    intro v hv
    exfalso
    cases v <;> simp at hv
  | succ N ih =>
    intro v hv fuel rest hfuel hrest
    obtain ⟨f, rfl⟩ : ∃ f, fuel = f + 1 := by
      cases fuel with
      | zero => omega
      | succ f => exact ⟨f, rfl⟩
    cases v with
    | null => exact parseVal_null_eq f rest
    | bool b =>
      cases b
      · exact parseVal_false_eq f rest
      · exact parseVal_true_eq f rest
    | num i =>
      obtain ⟨c, t, hct, hc⟩ := printInt_shape i
      have hcn : c ≠ 'n' ∧ c ≠ 't' ∧ c ≠ 'f' ∧ c ≠ '"' ∧ c ≠ '[' ∧ c ≠ '{' := by
        rcases hc with hc | hc
        · subst hc
          exact ⟨by decide, by decide, by decide, by decide, by decide, by decide⟩
        · have h := isDigit_ne hc
          exact ⟨h.1, h.2.1, h.2.2.1, h.2.2.2.1, h.2.2.2.2.1, h.2.2.2.2.2.1⟩
      have hpn : printVal (.num i) ++ rest = c :: (t ++ rest) := by
        show printInt i ++ rest = _
        rw [hct]; simp
      rw [hpn, parseVal_head_eq f c (t ++ rest) hcn.1 hcn.2.1 hcn.2.2.1
        hcn.2.2.2.1 hcn.2.2.2.2.1 hcn.2.2.2.2.2, if_pos hc]
      have heq : c :: (t ++ rest) = printInt i ++ rest := by rw [hct]; simp
      rw [heq, parseNum_print i rest hrest]
    | str s =>
      have hpv : printVal (.str s) ++ rest =
          '"' :: (escList s.data ++ ('"' :: rest)) := by
        show ('"' :: (escList s.data ++ ['"'])) ++ rest = _
        simp
      rw [hpv, parseVal_str_eq, parseStrBody_escape]
      rfl
    | arr xs =>
      cases xs with
      | nil => exact parseVal_arr_eq f ']' rest
      | cons x xs' =>
        obtain ⟨cx, tx, hcx, hne1, hne2⟩ := printVal_shape x
        have hszx : sizeOf x ≤ N := by simp at hv; omega
        cases xs' with
        | nil =>
          have hpv : printVal (.arr [x]) ++ rest =
              '[' :: cx :: (tx ++ (']' :: rest)) := by
            show ('[' :: printItems [x]) ++ rest = _
            simp [printItems, hcx]
          have hfx : (printVal x).length < f := by
            have hl : (printVal (.arr [x])).length = (printVal x).length + 2 := by
              show ('[' :: printItems [x]).length = _
              simp [printItems]
            omega
          have hb : ∀ c, ((']' :: rest).head? = some c) → ¬ c.isDigit :=
            boundary_cons (by decide) rest
          have hx := ih x hszx f (']' :: rest) hfx hb
          rw [hcx] at hx
          simp only [List.cons_append] at hx
          rw [hpv, parseVal_arr_eq, if_neg hne1, hx]
          rfl
        | cons y tl =>
          have hpv : printVal (.arr (x :: y :: tl)) ++ rest =
              '[' :: cx :: (tx ++ (',' :: (printItems (y :: tl) ++ rest))) := by
            show ('[' :: printItems (x :: y :: tl)) ++ rest = _
            simp [printItems, hcx]
          have hlt : (printVal (.arr (x :: y :: tl))).length =
              (printVal x).length + 2 + (printItems (y :: tl)).length := by
            show ('[' :: printItems (x :: y :: tl)).length = _
            simp [printItems]
            omega
          have hlt2 : (printVal (.arr (y :: tl))).length =
              (printItems (y :: tl)).length + 1 := by
            show ('[' :: printItems (y :: tl)).length = _
            simp
          have hx1 : 1 ≤ (printVal x).length := printVal_length_pos x
          have hfx : (printVal x).length < f := by omega
          have hfa : (printVal (.arr (y :: tl))).length < f := by omega
          have hsz2 : sizeOf (JsonValue.arr (y :: tl)) ≤ N := by
            simp at hv ⊢; omega
          have hb : ∀ c, ((',' :: (printItems (y :: tl) ++ rest)).head? = some c) →
              ¬ c.isDigit := boundary_cons (by decide) _
          have hx := ih x hszx f (',' :: (printItems (y :: tl) ++ rest)) hfx hb
          rw [hcx] at hx
          simp only [List.cons_append] at hx
          have harr := ih (.arr (y :: tl)) hsz2 f rest hfa hrest
          have hre : printVal (.arr (y :: tl)) ++ rest =
              '[' :: (printItems (y :: tl) ++ rest) := by
            show ('[' :: printItems (y :: tl)) ++ rest = _
            simp
          rw [hre] at harr
          rw [hpv, parseVal_arr_eq, if_neg hne1, hx]
          show (parseVal f ('[' :: (printItems (y :: tl) ++ rest))).bind _ = _
          rw [harr]
          rfl
    | obj fs =>
      cases fs with
      | nil => exact parseVal_obj_eq f '}' rest
      | cons kv fs' =>
        obtain ⟨k, v0⟩ := kv
        have hszv : sizeOf v0 ≤ N := by simp at hv; omega
        cases fs' with
        | nil =>
          have hpv : printVal (.obj [(k, v0)]) ++ rest =
              '{' :: '"' :: (escList k.data ++
                ('"' :: (':' :: (printVal v0 ++ ('}' :: rest))))) := by
            show ('{' :: printFields [(k, v0)]) ++ rest = _
            simp [printFields]
          have hfv : (printVal v0).length < f := by
            have hl : (printVal (.obj [(k, v0)])).length =
                (escList k.data).length + (printVal v0).length + 5 := by
              show ('{' :: printFields [(k, v0)]).length = _
              simp [printFields]
              omega
            omega
          have hb : ∀ c, (('}' :: rest).head? = some c) → ¬ c.isDigit :=
            boundary_cons (by decide) rest
          have hv0 := ih v0 hszv f ('}' :: rest) hfv hb
          rw [hpv, parseVal_obj_eq]
          rw [if_neg (by decide : ¬ ('"' : Char) = '}'), if_pos rfl,
            parseStrBody_escape]
          show (parseVal f (printVal v0 ++ ('}' :: rest))).bind _ = _
          rw [hv0]
          rfl
        | cons m tl =>
          have hpv : printVal (.obj ((k, v0) :: m :: tl)) ++ rest =
              '{' :: '"' :: (escList k.data ++
                ('"' :: (':' :: (printVal v0 ++
                  (',' :: (printFields (m :: tl) ++ rest)))))) := by
            show ('{' :: printFields ((k, v0) :: m :: tl)) ++ rest = _
            simp [printFields]
          have hlt : (printVal (.obj ((k, v0) :: m :: tl))).length =
              (escList k.data).length + (printVal v0).length + 5 +
                (printFields (m :: tl)).length := by
            show ('{' :: printFields ((k, v0) :: m :: tl)).length = _
            simp [printFields]
            omega
          have hlt2 : (printVal (.obj (m :: tl))).length =
              (printFields (m :: tl)).length + 1 := by
            show ('{' :: printFields (m :: tl)).length = _
            simp
          have hfv : (printVal v0).length < f := by omega
          have hfo : (printVal (.obj (m :: tl))).length < f := by omega
          have hsz2 : sizeOf (JsonValue.obj (m :: tl)) ≤ N := by
            simp at hv ⊢; omega
          have hb : ∀ c, ((',' :: (printFields (m :: tl) ++ rest)).head? = some c) →
              ¬ c.isDigit := boundary_cons (by decide) _
          have hv0 := ih v0 hszv f (',' :: (printFields (m :: tl) ++ rest)) hfv hb
          have hobj := ih (.obj (m :: tl)) hsz2 f rest hfo hrest
          have hre : printVal (.obj (m :: tl)) ++ rest =
              '{' :: (printFields (m :: tl) ++ rest) := by
            show ('{' :: printFields (m :: tl)) ++ rest = _
            simp
          rw [hre] at hobj
          rw [hpv, parseVal_obj_eq]
          rw [if_neg (by decide : ¬ ('"' : Char) = '}'), if_pos rfl,
            parseStrBody_escape]
          show (parseVal f (printVal v0 ++
            (',' :: (printFields (m :: tl) ++ rest)))).bind _ = _
          rw [hv0]
          show (parseVal f ('{' :: (printFields (m :: tl) ++ rest))).bind _ = _
          rw [hobj]
          rfl

/-- Round trip: parsing a printed JSON value returns the value. -/
theorem jsonParse_stringify (v : JsonValue) :
    jsonParse (jsonStringify v) = some v := by
  have h := parseVal_print_aux (sizeOf v) v le_rfl
    ((printVal v).length + 1) [] (by omega) (by intro c hc; simp at hc)
  simp only [List.append_nil] at h
  show (match parseVal ((printVal v).length + 1) (printVal v) with
    | some (w, []) => some w
    | _ => none) = some v
  rw [h]

theorem printVal_inj {v w : JsonValue} (h : printVal v = printVal w) : v = w := by
  have h1 := jsonParse_stringify v
  have h2 := jsonParse_stringify w
  have hs : jsonStringify v = jsonStringify w := by
    unfold jsonStringify; rw [h]
  rw [hs, h2] at h1
  exact (Option.some.inj h1).symm

instance : DecidableEq JsonValue := fun v w =>
  if h : printVal v = printVal w then .isTrue (printVal_inj h)
  else .isFalse (fun hvw => h (by rw [hvw]))

/-! ## Data model

Shapes from `@rljson/rljson` as used by `io-sqlite-server.ts`.  The
underscore-prefixed JSON fields `_type`, `_data`, `_tableCfg`, `_hash` are
modelled by the Lean fields `type`, `data`, `tableCfgHash`, `hash`;
`tableCfgHash` and `hash` are `Option String` because the facade builds
tables with or without them. -/

/-- One column of a table configuration. -/
structure ColumnCfg where
  key : String
  type : String
  deriving Repr, DecidableEq

/-- A table configuration (`TableCfg`): its hash is part of the persisted
row, empty string when not yet stamped. -/
structure TableCfg where
  key : String
  type : String
  columns : List ColumnCfg
  hash : String
  deriving Repr, DecidableEq

/-- A logical row: a sparse mapping from column key to JSON value. -/
abbrev Row := List (String × JsonValue)

/-- A table value as exchanged on write/read/dump. -/
structure TableType where
  type : String
  data : List Row
  tableCfgHash : Option String
  hash : Option String
  deriving Repr, DecidableEq

/-- A top-level Rljson document: a mapping from table key to table. -/
abbrev Rljson := List (String × TableType)

/-! ## Name mapping

Modelled from the spec: `IoDbNameMapping` of `@rljson/io` is a
deterministic, collision-free suffixing scheme separating logical keys
from physical storage identifiers (its source is not part of this
repository; only the suffix discipline matters to the claims). -/

/-- Modelled from the spec: physical table name of a logical table key. -/
def addTableSuffix (k : String) : String := k ++ "_tbl"

/-- Modelled from the spec: physical column name of a logical column key. -/
def addColumnSuffix (k : String) : String := k ++ "_col"

/-! ## Canonical hashing

Modelled from the spec: the `@rljson/hash` primitive computes a
deterministic content digest over a JSON value's fields excluding the
reserved `_hash` field, stable under key reordering, and `stampMissing`
fills the hash field only when it is absent.  The digest is modelled by
the canonical serialization itself (sorted keys, hash field removed),
which is deterministic and injective on canonical content. -/

/-- Lexicographic order on character lists (by code point). -/
def lexLe : List Char → List Char → Bool
  | [], _ => true
  | _ :: _, [] => false
  | c :: cs, d :: ds =>
    if c.toNat < d.toNat then true
    else if c.toNat = d.toNat then lexLe cs ds
    else false

/-- Insert an entry into a row sorted by key. -/
def insertByKey (p : String × JsonValue) : Row → Row
  | [] => [p]
  | q :: r => if lexLe p.1.data q.1.data then p :: q :: r else q :: insertByKey p r

/-- Sort a row by key (insertion sort, kernel-reducible). -/
def sortByKey : Row → Row
  | [] => []
  | p :: r => insertByKey p (sortByKey r)

/-- Modelled from the spec: the canonical content hash of a row. -/
def hashRow (r : Row) : String :=
  jsonStringify (.obj (sortByKey (r.filter (fun p => p.1 ≠ "_hash"))))

/-- Modelled from the spec: stamp the hash field of a row when missing. -/
def hshRow (r : Row) : Row :=
  if (r.lookup "_hash").isSome then r
  else r ++ [("_hash", .str (hashRow r))]

/-- Stamp every row of a table. -/
def hshTable (t : TableType) : TableType :=
  { t with data := t.data.map hshRow }

/-- Model of `hsh(request.data)` at the start of `_write`: stamps the
missing row hashes of every table. -/
def hshData (d : Rljson) : Rljson :=
  d.map (fun p => (p.1, hshTable p.2))

/-- Modelled from the spec: the canonical content hash of a TableCfg. -/
def hashCfg (c : TableCfg) : String :=
  jsonStringify (.obj
    [("key", .str c.key), ("type", .str c.type),
     ("columns", .arr (c.columns.map (fun col =>
       .obj [("key", .str col.key), ("type", .str col.type)])))])

/-- Modelled from the spec: stamp a TableCfg's hash when missing. -/
def hshCfg (c : TableCfg) : TableCfg :=
  if c.hash = "" then { c with hash := hashCfg c } else c

/-! ## Database state -/

/-- A physical table: its column names (suffixed) and its stored rows.
Rows are kept as records from physical column name to storage value, as
an SQL row is observed through `SELECT`. -/
structure PhysTable where
  cols : List String
  rows : List (List (String × SqlValue))
  deriving Repr, DecidableEq

/-- The in-memory SQLite database owned by the facade: the `tableCfgs`
registry (append-only log of TableCfg versions; the active version of a
key is the last one inserted) and the physical user tables. -/
structure Db where
  cfgs : List TableCfg
  tables : List (String × PhysTable)
  deriving Repr, DecidableEq

/-- The active (latest) registered config of a table key: the last
version inserted for it. -/
def activeCfg (db : Db) (key : String) : Option TableCfg :=
  db.cfgs.foldl (fun acc c => if c.key = key then some c else acc) none

/-- Errors surfaced by the facade.  Named constructors stand for the
error kinds thrown by the (external) `IoTools` helpers; `jsError m` is a
plain JavaScript `Error` carrying message `m` (as thrown by `_write`'s
aggregate failure and by `JSON.parse`/codec failures). -/
inductive DbError where
  | tableNotFound (table : String)
  | columnNotFound (table : String) (column : String)
  | schemaIncompatible (table : String)
  | jsError (message : String)
  deriving Repr, DecidableEq

/-! ## IoTools helpers (modelled from the spec)

These helpers live in the external `@rljson/io` package; only their
contracts are described by the spec, so they are modelled from it. -/

/-- Modelled from the spec: fails with `TableNotFound` if the table is
unregistered. -/
def throwWhenTableDoesNotExist (db : Db) (table : String) :
    Except DbError Unit :=
  if (activeCfg db table).isSome then .ok ()
  else .error (.tableNotFound table)

/-- Modelled from the spec: fails with `ColumnNotFound` when a requested
column is not part of the table's active schema. -/
def throwWhenColumnDoesNotExist (db : Db) (table : String)
    (columns : List String) : Except DbError Unit :=
  match activeCfg db table with
  | none => .error (.tableNotFound table)
  | some cfg =>
    match columns.find? (fun c => ¬ cfg.columns.any (fun col => col.key = c)) with
    | some c => .error (.columnNotFound table c)
    | none => .ok ()

/-- Modelled from the spec: every table of the request must be
registered. -/
def throwWhenTablesDoNotExist (db : Db) (data : Rljson) :
    Except DbError Unit :=
  match data.find? (fun p => ¬ (activeCfg db p.1).isSome) with
  | some p => .error (.tableNotFound p.1)
  | none => .ok ()

/-- A row's columns are a subset of the schema's columns. -/
def rowMatchesCfg (cfg : TableCfg) (row : Row) : Bool :=
  row.all (fun p => cfg.columns.any (fun c => c.key = p.1))

/-- Modelled from the spec: every row's columns must be a subset of the
schema of its table. -/
def throwWhenTableDataDoesNotMatchCfg (db : Db) (data : Rljson) :
    Except DbError Unit :=
  if data.all (fun p =>
      match activeCfg db p.1 with
      | some cfg => p.2.data.all (fun r => rowMatchesCfg cfg r)
      | none => false) then .ok ()
  else .error (.jsError "table data does not match table config")

/-- Modelled from the spec: the column-prefix compatibility check of
`createOrExtendTable`.  If the table is registered, the stored active
config's columns must equal an initial segment of the new config's
columns (same keys and same types); otherwise the call fails with
`SchemaIncompatible` (covers removed, reordered, or retyped columns). -/
def throwWhenTableIsNotCompatible (db : Db) (cfg : TableCfg) :
    Except DbError Unit :=
  match activeCfg db cfg.key with
  | none => .ok ()
  | some old =>
    if cfg.columns.take old.columns.length = old.columns then .ok ()
    else .error (.schemaIncompatible cfg.key)

/-! ## The column codec (`_serializeRow` and `_parseData`) -/

/-- The encoding of one logical cell performed by the loop body of
`_serializeRow`: `rowAsJson[key] ?? null`, objects and arrays
stringified, booleans mapped to 1/0, strings and numbers passed
through, absent and null values stored as NULL. -/
def serializeCell (rowAsJson : Row) (key : String) : SqlValue :=
  match rowAsJson.lookup key with
  | none => .null
  | some .null => .null
  | some (.obj fs) => .text (jsonStringify (.obj fs))
  | some (.arr xs) => .text (jsonStringify (.arr xs))
  | some (.bool b) => .int (if b then 1 else 0)
  | some (.str s) => .text s
  | some (.num n) => .int n

/-- Embeds `_serializeRow`: one storage value per column of the config,
in declared order. -/
def serializeRow (rowAsJson : Row) (tableCfg : TableCfg) : List SqlValue :=
  tableCfg.columns.map (fun col => serializeCell rowAsJson col.key)

/-- A storage value passed through unchanged, as seen by JavaScript. -/
def sqlToJson : SqlValue → JsonValue
  | .null => .null
  | .int n => .num n
  | .text s => .str s

/-- The decoding of one non-null cell performed by the switch of
`_parseData`: booleans via `val !== 0`, `json`/`jsonArray` via
`JSON.parse`, strings and numbers passed through, any other declared
type throws an unsupported-column-type error. -/
def parseCell (type : String) (val : SqlValue) : Except DbError JsonValue :=
  if type = "boolean" then .ok (.bool (!(val == SqlValue.int 0)))
  else if type = "jsonArray" ∨ type = "json" then
    match val with
    | .text s =>
      match jsonParse s with
      | some v => .ok v
      | none => .error (.jsError ("Unexpected token in JSON: " ++ s))
    | .int n => .ok (.num n)
    | .null => .ok .null
  else if type = "string" ∨ type = "number" then .ok (sqlToJson val)
  else .error (.jsError ("Unsupported column type " ++ type))

/-- One iteration of the per-row loop of `_parseData`: a cell whose
physical value is missing or NULL is skipped (the decoded row omits the
key), any other cell is decoded by declared column type and appended. -/
def parseRowStep (row : List (String × SqlValue)) (acc : Row)
    (col : ColumnCfg) : Except DbError Row :=
  match row.lookup (addColumnSuffix col.key) with
  | none => .ok acc
  | some .null => .ok acc
  | some v => (parseCell col.type v).map (fun jv => acc ++ [(col.key, jv)])

/-- Embeds the per-row loop of `_parseData`. -/
def parseRow (tableCfg : TableCfg) (row : List (String × SqlValue)) :
    Except DbError Row :=
  tableCfg.columns.foldlM (parseRowStep row) []

/-- Embeds `_parseData`. -/
def parseData (data : List (List (String × SqlValue))) (tableCfg : TableCfg) :
    Except DbError (List Row) :=
  data.mapM (fun row => parseRow tableCfg row)

/-- Embeds `_convertToReturn`.  The function was written for sql.js
result sets of shape `[{columns, values}]`, but under node:sqlite
`StatementSync.all()` returns an array of plain records
(`Record<string, SQLOutputValue>`): `resultSet[0]?.values` reads the
cell of a column literally named `values`, and an `SQLOutputValue`
(`null | number | bigint | string | Uint8Array`) is never a JavaScript
`Array`, so the `!rows || !Array.isArray(rows) || !columns ||
!Array.isArray(columns)` guard always returns `[]` and the sql.js-style
row mapping after it is unreachable. -/
def convertToReturn (resultSet : List (List (String × SqlValue))) :
    List (List (String × SqlValue)) :=
  match resultSet.head? with
  | none => []
  | some row0 =>
    match row0.lookup "values", row0.lookup "columns" with
    | some _, some _ => []
    | _, _ => []

/-! ## WHERE clause construction (`_whereString`) -/

/-- The fragment `_whereString` appends for one filter entry: note that
the filter VALUE is interpolated into the SQL text (quoted for strings
and serialized objects, as a numeric literal for numbers and booleans,
`IS NULL` for null). -/
def wherePiece (column : String) (value : JsonValue) : String :=
  let columnWithFix := addColumnSuffix column
  match value with
  | .str s => columnWithFix ++ " = '" ++ s ++ "' AND "
  | .num n => columnWithFix ++ " = " ++ (⟨printInt n⟩ : String) ++ " AND "
  | .bool b => columnWithFix ++ " = " ++ (if b then "1" else "0") ++ " AND "
  | .null => columnWithFix ++ " IS NULL AND "
  | .obj fs => columnWithFix ++ " = '" ++ jsonStringify (.obj fs) ++ "' AND "
  | .arr xs => columnWithFix ++ " = '" ++ jsonStringify (.arr xs) ++ "' AND "

/-- Embeds `_whereString`: concatenates the per-entry fragments onto an
initial space; when the result ends with `'AND '` the trailing five
characters (`' AND '`) are sliced off, as `slice(0, -5)` does.  The
string is manipulated as its character list. -/
def whereString (whereClause : List (String × JsonValue)) : String :=
  let ws : List Char := whereClause.foldl
    (fun acc p => acc ++ (wherePiece p.1 p.2).data) " ".data
  ⟨if "AND ".data.isSuffixOf ws then ws.take (ws.length - 5) else ws⟩

/-! ## Schema registry operations (`_createOrExtendTable`) -/

/-- Append a TableCfg version to the registry (the model of
`_insertTableCfg`, whose SQL lives in the missing `sql-statements.ts`;
modelled from the spec: persists the new TableCfg version). -/
def insertCfg (db : Db) (cfg : TableCfg) : Db :=
  { db with cfgs := db.cfgs ++ [hshCfg cfg] }

/-- Create the physical table of a config (modelled from the spec:
`createTable` emits one physical column per ColumnConfig in declared
order). -/
def createPhysTable (db : Db) (cfg : TableCfg) : Db :=
  { db with tables := db.tables ++
      [(addTableSuffix cfg.key,
        { cols := cfg.columns.map (fun c => addColumnSuffix c.key),
          rows := [] })] }

/-- Embeds `_createTable`: registry insert, then physical creation. -/
def createTable (db : Db) (tableCfgHashed : TableCfg) (tableCfg : TableCfg) :
    Db :=
  createPhysTable (insertCfg db tableCfgHashed) tableCfg

/-- Add physical columns to a table (modelled from the spec:
`alterTable` emits one add-column statement per added column, applied in
order). -/
def alterAddColumns (db : Db) (tableKey : String) (added : List ColumnCfg) :
    Db :=
  { db with tables := db.tables.map (fun p =>
      if p.1 = addTableSuffix tableKey then
        (p.1, { p.2 with
                cols := p.2.cols ++ added.map (fun c => addColumnSuffix c.key) })
      else p) }

/-- Embeds `_extendTable`: compute the added columns as the tail of the
new config's columns past the stored config's length; no-op when
nothing was added, otherwise persist the new version and alter the
physical table. -/
def extendTable (db : Db) (newTableCfg : TableCfg) : Except DbError Db :=
  match activeCfg db newTableCfg.key with
  | none => .error (.tableNotFound newTableCfg.key)
  | some oldTableCfg =>
    let addedColumns :=
      newTableCfg.columns.drop oldTableCfg.columns.length
    if addedColumns.isEmpty then .ok db
    else .ok (alterAddColumns (insertCfg db newTableCfg)
      newTableCfg.key addedColumns)

/-- Embeds `_createOrExtendTable`: compatibility pre-check, hash the
config, then branch on whether the table key is already registered. -/
def createOrExtendTable (db : Db) (tableCfg : TableCfg) : Except DbError Db := do
  (throwWhenTableIsNotCompatible db tableCfg)
  let tableCfgHashed := hshCfg tableCfg
  let registered := db.cfgs.any (fun c => c.key = tableCfg.key)
  if registered then extendTable db tableCfgHashed
  else .ok (createTable db tableCfgHashed tableCfg)

/-! ## The write path (`_write`) -/

/-- JavaScript's `Array.prototype.join(', ')`. -/
def joinComma : List String → String
  | [] => ""
  | [x] => x
  | x :: y :: tl => x ++ ", " ++ joinComma (y :: tl)

/-- The SQL text built per row inside `_write`'s loop (lines 312-315):
it is a function of the table key and the schema's column keys alone —
the row being inserted does not occur in it; the row's values travel
only as bound parameters for the `?` placeholders. -/
def insertQuery (tableKeyWithSuffix : String) (tableCfg : TableCfg) : String :=
  let columnKeys := tableCfg.columns.map (fun c => c.key)
  let columnKeysWithSuffix := columnKeys.map addColumnSuffix
  let placeholders := joinComma (columnKeys.map (fun _ => "?"))
  "INSERT OR IGNORE INTO " ++ tableKeyWithSuffix ++ " (" ++
    joinComma columnKeysWithSuffix ++ ") VALUES (" ++
    placeholders ++ ")"

/-- Outcome of one `db.prepare(query).run(...)` call. -/
inductive ExecResult where
  | done (db : Db)
  | thrown (code : String) (message : String)
  deriving Repr

/-- The row-insert execution primitive, abstracted: it receives the
physical table key, the physical column list, the SQL text and the bound
parameters, and either updates the database or throws an error carrying
a code and a message. -/
def InsertEngine : Type :=
  Db → String → List String → String → List SqlValue → ExecResult

/-- Replace one physical table. -/
def updateTable (db : Db) (key : String) (f : PhysTable → PhysTable) : Db :=
  { db with tables := db.tables.map (fun p =>
      if p.1 = key then (p.1, f p.2) else p) }

/-- Modelled from the spec: `INSERT OR IGNORE` against a content-addressed
table.  The rljson convention makes the `_hash` column the primary key,
so a primary-key collision is exactly an existing row with the same hash
cell and the colliding row is skipped without an error; a table without
a `_hash` column has no explicit primary key and every insert appends. -/
def insertOrIgnoreRows (pt : PhysTable)
    (rowAssoc : List (String × SqlValue)) : PhysTable :=
  let hcol := addColumnSuffix "_hash"
  if pt.cols.contains hcol then
    if pt.rows.any (fun r => r.lookup hcol == rowAssoc.lookup hcol) then pt
    else { pt with rows := pt.rows ++ [rowAssoc] }
  else { pt with rows := pt.rows ++ [rowAssoc] }

/-- The model insert engine: the in-memory SQLite database executing the
parameterized `INSERT OR IGNORE` statement.  With `OR IGNORE`, a
primary-key collision is not an error: SQLite skips the row and the
statement succeeds, so this engine never throws the primary-key code. -/
def modelEngine : InsertEngine := fun db tableKeyS cols _sql vals =>
  match db.tables.find? (fun p => p.1 = tableKeyS) with
  | none => .thrown "SQLITE_ERROR" ("no such table: " ++ tableKeyS)
  | some _ =>
    .done (updateTable db tableKeyS
      (fun pt => insertOrIgnoreRows pt (cols.zip vals)))

/-- The per-table row loop of `_write`: serialize and execute each row;
an exception with code `SQLITE_CONSTRAINT_PRIMARYKEY` executes the
callback's `return`, abandoning the REMAINING rows of this table; any
other exception appends a formatted message to the error store and the
loop continues with the next row. -/
def writeRowsLoop (eng : InsertEngine) (tableName : String)
    (tableCfg : TableCfg) (db : Db) (errs : List String) :
    List Row → Db × List String
  | [] => (db, errs)
  | row :: rest =>
    let tableKeyWithSuffix := addTableSuffix tableName
    let query := insertQuery tableKeyWithSuffix tableCfg
    let serializedRow := serializeRow row tableCfg
    match eng db tableKeyWithSuffix
        (tableCfg.columns.map (fun c => addColumnSuffix c.key))
        query serializedRow with
    | .done db2 => writeRowsLoop eng tableName tableCfg db2 errs rest
    | .thrown code msg =>
      if code = "SQLITE_CONSTRAINT_PRIMARYKEY" then (db, errs)
      else writeRowsLoop eng tableName tableCfg db
        (errs ++ ["Error inserting into table " ++ tableName ++ ": " ++ msg])
        rest

/-- The table loop of `_write` (`iterateTables`). -/
def writeTablesLoop (eng : InsertEngine) (db : Db) (errs : List String) :
    Rljson → Except DbError (Db × List String)
  | [] => .ok (db, errs)
  | (tableName, tableData) :: rest =>
    match activeCfg db tableName with
    | none => .error (.tableNotFound tableName)
    | some tableCfg =>
      let p := writeRowsLoop eng tableName tableCfg db errs tableData.data
      writeTablesLoop eng p.1 p.2 rest

/-- Embeds `_write`, parameterized by the row-insert execution
primitive: hash the request, run the two registration checks, loop over
every table and row, and fail once at the end with the aggregate message
when any row-level error was collected. -/
def write (eng : InsertEngine) (db : Db) (data : Rljson) :
    Except DbError Db := do
  let hashedData := hshData data
  (throwWhenTablesDoNotExist db data)
  (throwWhenTableDataDoesNotMatchCfg db data)
  match writeTablesLoop eng db [] hashedData with
  | .error e => .error e
  | .ok (db2, errs) =>
    if errs.length > 0 then
      .error (.jsError ("Errors occurred: " ++ String.intercalate ", " errs))
    else .ok db2

/-! ## The read path (`_readRows`, `_dumpTable`, `rowCount`) -/

/-- One row of `SELECT *` satisfies the interpolated WHERE clause of one
filter entry: SQL equality against the interpolated literal. -/
def matchesWhere (r : List (String × SqlValue)) (column : String)
    (value : JsonValue) : Bool :=
  let cS := addColumnSuffix column
  match value with
  | .str s => r.lookup cS == some (.text s)
  | .num n => r.lookup cS == some (.int n)
  | .bool b => r.lookup cS == some (.int (if b then 1 else 0))
  | .null => r.lookup cS == some .null || (r.lookup cS).isNone
  | .obj fs => r.lookup cS == some (.text (jsonStringify (.obj fs)))
  | .arr xs => r.lookup cS == some (.text (jsonStringify (.arr xs)))

/-- The storage engine evaluating the interpolated
`SELECT * FROM t WHERE <whereString>` query built by `_readRows`:
returns the stored rows matching every equality predicate. -/
def selectStar (db : Db) (tableKeyS : String)
    (whereClause : List (String × JsonValue)) :
    List (List (String × SqlValue)) :=
  match db.tables.find? (fun p => p.1 = tableKeyS) with
  | none => []
  | some p => p.2.rows.filter (fun r =>
      whereClause.all (fun w => matchesWhere r w.1 w.2))

/-- Modelled from the spec: the table hash stamped by
`IoTools.sortTableDataAndUpdateHash`.  The digest is modelled by the
canonical serialization of the decoded rows. -/
def hashTable (t : TableType) : String :=
  jsonStringify (.arr (t.data.map (fun r => .obj (sortByKey r))))

/-- Modelled from the spec: `IoTools.sortTableDataAndUpdateHash` stamps
the table-level hash of a reconstructed table.  The sorting of `_data`
is modelled as the identity: every claim under study observes the
decoded row list only through the facts proved about it, and the
broken read path (see `convertToReturn`) only ever reaches this
function with an empty or unchanged row list. -/
def sortTableDataAndUpdateHash (t : TableType) : TableType :=
  { t with hash := some (hashTable t) }

/-- Embeds `_readRows`: existence and column checks, interpolated query,
empty result short-circuit, then conversion and decoding of the result
set. -/
def readRows (db : Db) (table : String)
    (whereReq : List (String × JsonValue)) : Except DbError Rljson := do
  (throwWhenTableDoesNotExist db table)
  (throwWhenColumnDoesNotExist db table (whereReq.map (fun w => w.1)))
  let tableKeyWithSuffix := addTableSuffix table
  match activeCfg db table with
  | none => .error (.tableNotFound table)
  | some tableCfg => do
    let ws := whereString whereReq
    let _query := "SELECT * FROM " ++ tableKeyWithSuffix ++ " WHERE" ++ ws
    let resultSet := selectStar db tableKeyWithSuffix whereReq
    if resultSet.isEmpty then
      .ok [(table, { type := tableCfg.type, data := [],
                     tableCfgHash := none, hash := none })]
    else do
      let jsonResultSet := convertToReturn resultSet
      let convertedResult ← parseData jsonResultSet tableCfg
      .ok [(table, sortTableDataAndUpdateHash
        { type := tableCfg.type, data := convertedResult,
          tableCfgHash := none, hash := none })]

/-- The storage engine evaluating the `allData` projection query of
`_dumpTable` (modelled from the spec: select the listed physical columns
of every stored row; a column missing from a stored row reads as NULL). -/
def selectAllData (db : Db) (tableKeyS : String) (cols : List String) :
    List (List (String × SqlValue)) :=
  match db.tables.find? (fun p => p.1 = tableKeyS) with
  | none => []
  | some p => p.2.rows.map (fun r =>
      cols.map (fun c => (c, (r.lookup c).getD .null)))

/-- Embeds `_dumpTable`: existence check, projection query over the
schema's columns, conversion, decoding, and table reconstruction with
the config hash reference and a freshly stamped table hash. -/
def dumpTable (db : Db) (table : String) : Except DbError Rljson := do
  (throwWhenTableDoesNotExist db table)
  let tableKey := addTableSuffix table
  match activeCfg db table with
  | none => .error (.tableNotFound table)
  | some tableCfg => do
    let columnKeysWithSuffix :=
      tableCfg.columns.map (fun c => addColumnSuffix c.key)
    let resultSet := selectAllData db tableKey columnKeysWithSuffix
    let jsonRows := convertToReturn resultSet
    let parsedReturnData ← parseData jsonRows tableCfg
    let t : TableType :=
      { type := tableCfg.type, data := parsedReturnData,
        tableCfgHash := some tableCfg.hash, hash := some "" }
    .ok [(table, sortTableDataAndUpdateHash t)]

/-- Indexing an `SQLOutputValue` with `[0]` in JavaScript: `null` and
numbers have no index properties (undefined); a string yields its
one-character substring. -/
def jsIndex (v : SqlValue) (i : Nat) : Option SqlValue :=
  match v with
  | .text s => (s.data.get? i).map (fun c => .text ⟨[c]⟩)
  | _ => none

/-- The extraction `rowCount` performs on its result set:
`(stmt as any[])?.[0]?.values?.[0]?.[0] ?? 0` followed by `Number(...)`.
Under node:sqlite the first result row is a plain record, so `.values`
reads the cell of a column literally named `values`, and two further
`[0]` index steps are applied to scalar `SQLOutputValue`s. -/
def rowCountExtract (resultSet : List (List (String × SqlValue))) : Int :=
  match resultSet.head? with
  | none => 0
  | some row0 =>
    match row0.lookup "values" with
    | none => 0
    | some v =>
      match jsIndex v 0 with
      | none => 0
      | some w =>
        match jsIndex w 0 with
        | none => 0
        | some u =>
          match u with
          | .int n => n
          | .text s => ((jsonParse s).bind (fun j =>
              match j with | .num n => some n | _ => none)).getD 0
          | .null => 0

/-- The number of rows physically stored for a logical table key. -/
def physRowCount (db : Db) (table : String) : Nat :=
  match db.tables.find? (fun p => p.1 = addTableSuffix table) with
  | none => 0
  | some p => p.2.rows.length

/-- Embeds `rowCount`, parameterized by the (unknown) column name the
missing `sql-statements.ts` gives the COUNT aggregate: the existence
check, then the modelled COUNT(*) result set (one row, one integer
cell — modelled from the spec: `countRows` introspection helper), then
the extraction. -/
def rowCount (db : Db) (table : String) (countColumnName : String) :
    Except DbError Int := do
  (throwWhenTableDoesNotExist db table)
  let resultSet :=
    [[(countColumnName, SqlValue.int (physRowCount db table))]]
  .ok (rowCountExtract resultSet)

/-! ## The NodeSQLite wrapper (`src/node-sqlite.ts`) -/

namespace NodeSQLite

/-- The SQLite engine state seen by `transaction`: the current database
value and the snapshot taken by an open `BEGIN TRANSACTION`
(the engine model: `BEGIN` snapshots, `COMMIT` discards the snapshot,
`ROLLBACK` restores it). -/
structure TxDb (σ : Type) where
  cur : σ
  pending : Option σ

/-- Effect of `BEGIN TRANSACTION`. -/
def txBegin {σ : Type} (d : TxDb σ) : TxDb σ := { d with pending := some d.cur }

/-- Effect of `COMMIT`. -/
def txCommit {σ : Type} (d : TxDb σ) : TxDb σ := { cur := d.cur, pending := none }

/-- Effect of `ROLLBACK`: restore the snapshot. -/
def txRollback {σ : Type} (d : TxDb σ) : TxDb σ :=
  { cur := d.pending.getD d.cur, pending := none }

/-- Outcome of `NodeSQLite.transaction`: the thrown not-open error, a
normal return, or a rethrown callback error; the last two carry the
final engine state and the bracketing statements issued around the
callback. -/
inductive TxOutcome (σ ε τ : Type) where
  | notOpen (message : String)
  | ok (final : TxDb σ) (stmts : List String) (result : τ)
  | raised (final : TxDb σ) (stmts : List String) (err : ε)

/-- Embeds `NodeSQLite.transaction`.  The callback `fn` is modelled by
its effect on the current database value: it returns the value as of its
completion or its throw, together with its result or error.  The wrapper
throws when the database is not open; otherwise it issues
`BEGIN TRANSACTION`, runs `fn`, and issues `COMMIT` on normal return
(returning `fn`'s result) or `ROLLBACK` on a throw (rethrowing the same
error). -/
def transaction {σ ε τ : Type} (db : Option (TxDb σ))
    (fn : σ → σ × Except ε τ) : TxOutcome σ ε τ :=
  match db with
  | none => .notOpen "Database is not open"
  | some d =>
    let d1 := txBegin d
    match fn d1.cur with
    | (s2, .ok r) =>
      .ok (txCommit { d1 with cur := s2 })
        ["BEGIN TRANSACTION", "COMMIT"] r
    | (s2, .error e) =>
      .raised (txRollback { d1 with cur := s2 })
        ["BEGIN TRANSACTION", "ROLLBACK"] e

end NodeSQLite

/-- Decidable equality of facade results. -/
def exceptDecEq {ε α : Type} [DecidableEq ε] [DecidableEq α] :
    DecidableEq (Except ε α)
  | .error e, .error f =>
    if h : e = f then .isTrue (by rw [h])
    else .isFalse (fun hc => h (by injection hc))
  | .error _, .ok _ => .isFalse (fun hc => Except.noConfusion hc)
  | .ok _, .error _ => .isFalse (fun hc => Except.noConfusion hc)
  | .ok x, .ok y =>
    if h : x = y then .isTrue (by rw [h])
    else .isFalse (fun hc => h (by injection hc))

instance {ε α : Type} [DecidableEq ε] [DecidableEq α] :
    DecidableEq (Except ε α) := exceptDecEq

/-! ## A concrete scenario: the `users` table of the spec -/

/-- The `users` table config of the spec's scenario; per the rljson
convention its first column is the reserved `_hash` string column, the
primary key of the physical table. -/
def usersCfg : TableCfg :=
  { key := "users", type := "rows",
    columns := [{ key := "_hash", type := "string" },
                { key := "id", type := "number" },
                { key := "name", type := "string" }],
    hash := "" }

/-- Unwrap a facade result, defaulting to the empty database. -/
def okD (e : Except DbError Db) : Db :=
  match e with
  | .ok d => d
  | .error _ => { cfgs := [], tables := [] }

/-- The empty database (after `init`, ignoring the registry's own
bootstrap row, which none of the claims observe). -/
def db0 : Db := { cfgs := [], tables := [] }

/-- The database after registering `users`. -/
def dbUsers : Db := okD (createOrExtendTable db0 usersCfg)

/-- Two rows of the spec's scenario. -/
def rowAlice : Row := [("id", .num 1), ("name", .str "Alice")]

/-- Second row of the spec's scenario. -/
def rowBob : Row := [("id", .num 2), ("name", .str "Bob")]

/-- A single-table write request for `users`. -/
def usersWrite (rows : List Row) : Rljson :=
  [("users", { type := "rows", data := rows,
               tableCfgHash := none, hash := none })]

/-- The database after writing Alice. -/
def dbOne : Db := okD (write modelEngine dbUsers (usersWrite [rowAlice]))

/-- The database after writing Alice and Bob. -/
def dbTwo : Db :=
  okD (write modelEngine dbUsers (usersWrite [rowAlice, rowBob]))

example : (createOrExtendTable db0 usersCfg).isOk = true := by decide

example : write modelEngine dbUsers (usersWrite [rowAlice, rowBob]) =
    .ok dbTwo := by decide

example : physRowCount dbTwo "users" = 2 := by decide

example : physRowCount dbOne "users" = 1 := by decide

/-! ## Claims -/

/-- The decoded row list a `dumpTable` call returns for a table. -/
def dumpedRows (db : Db) (table : String) : Option (List Row) :=
  match dumpTable db table with
  | .ok r => (r.lookup table).map (fun t => t.data)
  | .error _ => none

/-- The decoded row list a `readRows` call returns for a table. -/
def readData (db : Db) (table : String)
    (whereReq : List (String × JsonValue)) : Option (List Row) :=
  match readRows db table whereReq with
  | .ok r => (r.lookup table).map (fun t => t.data)
  | .error _ => none

/-- C1.  The round-trip claim fails on the code: after a successful
`write` of one row into the registered `users` table (the row is
physically stored: the row count is 1), `dumpTable` returns a table
whose decoded `_data` is empty rather than the written row, because
`_convertToReturn` reads sql.js-shaped `{columns, values}` result sets
while node:sqlite's `all()` returns plain records, so every decoded
result set collapses to `[]`. -/
theorem C1_round_trip_dump_bug :
    write modelEngine dbUsers (usersWrite [rowAlice]) = .ok dbOne ∧
    physRowCount dbOne "users" = 1 ∧
    dumpedRows dbOne "users" = some [] := by
  refine ⟨by decide, by decide, by decide⟩

/-- C5.  `rowCount` correctly fails with `TableNotFound` on an
unregistered key, but for a registered table it returns 0 regardless of
the stored rows — here two rows are stored (physical row count 2) and
`rowCount` returns 0 for EVERY possible name of the COUNT result column,
because the extraction `stmt[0]?.values?.[0]?.[0] ?? 0` was written for
sql.js result shapes: under node:sqlite the chain always ends in
`undefined` and the `?? 0` fallback fires. -/
theorem C5_rowCount_bug :
    rowCount dbUsers "missing" "COUNT(*)" = .error (.tableNotFound "missing") ∧
    write modelEngine dbUsers (usersWrite [rowAlice, rowBob]) = .ok dbTwo ∧
    physRowCount dbTwo "users" = 2 ∧
    ∀ countColumnName, rowCount dbTwo "users" countColumnName = .ok 0 := by
  refine ⟨by decide, by decide, by decide, ?_⟩
  intro countColumnName
  have hext : rowCountExtract
      [[(countColumnName, SqlValue.int (physRowCount dbTwo "users"))]] = 0 := by
    by_cases h : countColumnName = "values"
    · subst h; decide
    · have hb : ("values" == countColumnName) = false := by
        simp
        exact fun hh => h hh.symm
      simp [rowCountExtract, List.lookup, hb]
  show Except.ok (rowCountExtract
      [[(countColumnName, SqlValue.int (physRowCount dbTwo "users"))]]) =
    Except.ok (0 : Int)
  rw [hext]

/-- C9.  `readRows` filtering fails on the code: with a stored row
matching the filter `name = 'Alice'` (the SELECT produces one row), the
returned table's `_data` is empty because `_convertToReturn` collapses
every node:sqlite result set to `[]`; an empty filter match does yield a
valid empty table, and a filter on a nonexistent column does fail with
`ColumnNotFound`, but the central promise — returning exactly the
matching rows — is broken. -/
theorem C9_readRows_bug :
    (selectStar dbTwo (addTableSuffix "users")
      [("name", .str "Alice")]).length = 1 ∧
    readData dbTwo "users" [("name", .str "Alice")] = some [] ∧
    readData dbTwo "users" [("name", .str "Zoe")] = some [] ∧
    readRows dbTwo "users" [("nope", .str "x")] =
      .error (.columnNotFound "users" "nope") := by
  refine ⟨by decide, by decide, by decide, by decide⟩

/-- C6 counterexample.  The claim that the SQL text generated for a
`readRows` filter is independent of the filter's values is false: the
WHERE string built by `_whereString` for `name = "Alice"` differs from
the one built for `name = "Bob"` — the value is interpolated into the
SQL text. -/
theorem C6_where_value_dependence :
    whereString [("name", .str "Alice")] ≠
      whereString [("name", .str "Bob")] := by
  decide

/-- Occurrences of a character in a string. -/
def countOf (c : Char) (s : String) : Nat := s.data.count c

theorem countOf_append (c : Char) (a b : String) :
    countOf c (a ++ b) = countOf c a + countOf c b := by
  simp [countOf, String.data_append, List.count_append]

theorem countOf_joinComma_placeholders {α : Type} (l : List α) :
    countOf '?' (joinComma (l.map (fun _ => "?"))) = l.length := by
  induction l with
  | nil => rfl
  | cons x tl ih =>
    cases tl with
    | nil => rfl
    | cons y tl2 =>
      show countOf '?' ("?" ++ ", " ++ joinComma ((y :: tl2).map (fun _ => "?"))) = _
      rw [countOf_append, countOf_append, ih]
      simp [countOf]
      omega

theorem countOf_joinComma_zero (ss : List String)
    (h : ∀ x ∈ ss, countOf '?' x = 0) :
    countOf '?' (joinComma ss) = 0 := by
  induction ss with
  | nil => decide
  | cons x tl ih =>
    cases tl with
    | nil => simpa [joinComma] using h x (by simp)
    | cons y tl2 =>
      show countOf '?' (x ++ ", " ++ joinComma (y :: tl2)) = 0
      rw [countOf_append, countOf_append,
        ih (fun z hz => h z (by simp [hz])), h x (by simp)]
      rfl

/-- C6 amended.  The write path is parameterized: the SQL text built per
row by `_write` is a function of the table key and the schema alone, and
given `?`-free identifiers it contains exactly one `?` placeholder per
schema column (the row's values travel only as bound parameters).  The
read path is NOT parameterized: the WHERE fragment `_whereString` builds
for a string filter value interpolates that value, quoted, into the SQL
text. -/
theorem C6_parameterization_amended :
    (∀ (tableKeyWithSuffix : String) (cfg : TableCfg),
      countOf '?' tableKeyWithSuffix = 0 →
      (∀ col ∈ cfg.columns, countOf '?' (addColumnSuffix col.key) = 0) →
      countOf '?' (insertQuery tableKeyWithSuffix cfg) = cfg.columns.length) ∧
    (∀ (column s : String),
      whereString [(column, .str s)] =
        " " ++ addColumnSuffix column ++ " = '" ++ s ++ "'") := by
  constructor
  · intro tS cfg h1 h2
    show countOf '?' ("INSERT OR IGNORE INTO " ++ tS ++ " (" ++
      joinComma ((cfg.columns.map (fun c => c.key)).map addColumnSuffix) ++
      ") VALUES (" ++
      joinComma ((cfg.columns.map (fun c => c.key)).map (fun _ => "?")) ++
      ")") = cfg.columns.length
    rw [countOf_append, countOf_append, countOf_append, countOf_append,
      countOf_append, countOf_append]
    rw [countOf_joinComma_zero _ (by
      intro x hx
      simp only [List.map_map, List.mem_map] at hx
      obtain ⟨col, hcol, rfl⟩ := hx
      exact h2 col hcol)]
    have hph : countOf '?'
        (joinComma ((cfg.columns.map (fun c => c.key)).map (fun _ => "?"))) =
        cfg.columns.length := by
      rw [countOf_joinComma_placeholders]
      simp
    rw [hph, h1]
    have e1 : countOf '?' "INSERT OR IGNORE INTO " = 0 := rfl
    have e2 : countOf '?' " (" = 0 := rfl
    have e3 : countOf '?' ") VALUES (" = 0 := rfl
    have e4 : countOf '?' ")" = 0 := rfl
    rw [e1, e2, e3, e4]
    omega
  · intro column s
    show (⟨if "AND ".data.isSuffixOf
        (" ".data ++ (wherePiece column (.str s)).data) then
        (" ".data ++ (wherePiece column (.str s)).data).take
          ((" ".data ++ (wherePiece column (.str s)).data).length - 5)
      else " ".data ++ (wherePiece column (.str s)).data⟩ : String) = _
    have hdata : " ".data ++ (wherePiece column (.str s)).data =
        (" ".data ++ (addColumnSuffix column).data ++ " = '".data ++
          s.data ++ ['\'', ' ']) ++ "AND ".data := by
      show " ".data ++ (addColumnSuffix column ++ " = '" ++ s ++ "' AND ").data = _
      simp [String.data_append]
    rw [hdata]
    have hsuf : "AND ".data.isSuffixOf
        ((" ".data ++ (addColumnSuffix column).data ++ " = '".data ++
          s.data ++ ['\'', ' ']) ++ "AND ".data) = true := by
      simp only [List.isSuffixOf_iff_suffix]
      exact List.suffix_append _ _
    rw [if_pos hsuf]
    have hlen : ((" ".data ++ (addColumnSuffix column).data ++ " = '".data ++
        s.data ++ ['\'', ' ']) ++ "AND ".data).length - 5 =
        (" ".data ++ (addColumnSuffix column).data ++ " = '".data ++
          s.data ++ ['\'']).length := by
      simp
      omega
    rw [hlen]
    have htake : ((" ".data ++ (addColumnSuffix column).data ++ " = '".data ++
        s.data ++ ['\'', ' ']) ++ "AND ".data).take
        ((" ".data ++ (addColumnSuffix column).data ++ " = '".data ++
          s.data ++ ['\'']).length) =
        " ".data ++ (addColumnSuffix column).data ++ " = '".data ++
          s.data ++ ['\''] := by
      have hsplit : (" ".data ++ (addColumnSuffix column).data ++
          " = '".data ++ s.data ++ ['\'', ' ']) ++ "AND ".data =
          (" ".data ++ (addColumnSuffix column).data ++ " = '".data ++
            s.data ++ ['\'']) ++ (' ' :: "AND ".data) := by
        simp
      rw [hsplit, List.take_left]
    rw [htake]
    apply String.ext
    simp [String.data_append]

/-- A concrete instance of the amended C6 statement, with every
hypothesis discharged: the `users` insert SQL holds exactly three
placeholders (one per column), and the Alice filter's WHERE fragment
carries the value in its text. -/
theorem C6_parameterization_amended_witness :
    countOf '?' (addTableSuffix "users") = 0 ∧
    (∀ col ∈ usersCfg.columns, countOf '?' (addColumnSuffix col.key) = 0) ∧
    countOf '?' (insertQuery (addTableSuffix "users") usersCfg) = 3 ∧
    whereString [("name", .str "Alice")] = " name_col = 'Alice'" := by
  refine ⟨by decide, by decide, ?_, ?_⟩
  · exact C6_parameterization_amended.1 (addTableSuffix "users") usersCfg
      (by decide) (by decide)
  · exact C6_parameterization_amended.2 "name" "Alice"

/-- C10.  `NodeSQLite.transaction` issues `BEGIN TRANSACTION` before the
callback; on normal return it issues `COMMIT` and returns the callback's
result with the callback's state changes kept; on a throw it issues
`ROLLBACK` and rethrows the same error, and the final database value is
the value from before the transaction — no change made inside the
callback persists. -/
theorem C10_transaction {σ ε τ : Type} (d : NodeSQLite.TxDb σ)
    (fn : σ → σ × Except ε τ) :
    (NodeSQLite.transaction (σ := σ) (ε := ε) (τ := τ) none fn =
      .notOpen "Database is not open") ∧
    (∀ s2 r, fn d.cur = (s2, .ok r) →
      NodeSQLite.transaction (some d) fn =
        .ok { cur := s2, pending := none }
          ["BEGIN TRANSACTION", "COMMIT"] r) ∧
    (∀ s2 e, fn d.cur = (s2, .error e) →
      NodeSQLite.transaction (some d) fn =
        .raised { cur := d.cur, pending := none }
          ["BEGIN TRANSACTION", "ROLLBACK"] e) := by
  refine ⟨rfl, ?_, ?_⟩
  · intro s2 r hfn
    show (match fn (NodeSQLite.txBegin d).cur with
      | (s2, .ok r) => NodeSQLite.TxOutcome.ok _ _ r
      | (s2, .error e) => NodeSQLite.TxOutcome.raised _ _ e) = _
    have hc : (NodeSQLite.txBegin d).cur = d.cur := rfl
    rw [hc, hfn]
    rfl
  · intro s2 e hfn
    show (match fn (NodeSQLite.txBegin d).cur with
      | (s2, .ok r) => NodeSQLite.TxOutcome.ok _ _ r
      | (s2, .error e) => NodeSQLite.TxOutcome.raised _ _ e) = _
    have hc : (NodeSQLite.txBegin d).cur = d.cur := rfl
    rw [hc, hfn]
    rfl

/-- Concrete instance of C10: a committing callback increments a counter
and its result is returned; a throwing callback's increment does not
persist (the final value is the original 0) and the same error is
rethrown. -/
theorem C10_transaction_witness :
    NodeSQLite.transaction (σ := Nat) (ε := String) (τ := String)
      (some { cur := 0, pending := none })
      (fun s => (s + 1, .ok "done")) =
      .ok { cur := 1, pending := none }
        ["BEGIN TRANSACTION", "COMMIT"] "done" ∧
    NodeSQLite.transaction (σ := Nat) (ε := String) (τ := String)
      (some { cur := 0, pending := none })
      (fun s => (s + 1, .error "boom")) =
      .raised { cur := 0, pending := none }
        ["BEGIN TRANSACTION", "ROLLBACK"] "boom" :=
  ⟨(C10_transaction { cur := 0, pending := none }
      (fun s => (s + 1, .ok "done"))).2.1 1 "done" rfl,
   (C10_transaction { cur := 0, pending := none }
      (fun s => (s + 1, .error "boom"))).2.2 1 "boom" rfl⟩

/-- C7.  Codec rules of `_serializeRow` / `_parseData`: a boolean value
encodes to the integer 1 or 0 and a stored integer decodes back via
`val !== 0`; an object or array value in a `json`/`jsonArray` column
encodes to its JSON serialization and decoding parses the text back to
the same structured value; strings and numbers pass through unchanged;
decoding a column whose declared type is any other tag fails with the
unsupported-column-type error. -/
theorem C7_codec_rules :
    (∀ (row : Row) (key : String) (b : Bool),
      row.lookup key = some (.bool b) →
      serializeCell row key = .int (if b then 1 else 0)) ∧
    (∀ n : Int, parseCell "boolean" (.int n) = .ok (.bool (!(n == 0)))) ∧
    (∀ (row : Row) (key : String) (v : JsonValue),
      row.lookup key = some v →
      ((∃ fs, v = .obj fs) ∨ (∃ xs, v = .arr xs)) →
      serializeCell row key = .text (jsonStringify v) ∧
      parseCell "json" (serializeCell row key) = .ok v ∧
      parseCell "jsonArray" (serializeCell row key) = .ok v) ∧
    (∀ (row : Row) (key : String) (s : String),
      row.lookup key = some (.str s) →
      serializeCell row key = .text s ∧
      parseCell "string" (.text s) = .ok (.str s)) ∧
    (∀ (row : Row) (key : String) (n : Int),
      row.lookup key = some (.num n) →
      serializeCell row key = .int n ∧
      parseCell "number" (.int n) = .ok (.num n)) ∧
    (∀ (t : String) (v : SqlValue),
      t ∉ (["boolean", "jsonArray", "json", "string", "number"] : List String) →
      parseCell t v = .error (.jsError ("Unsupported column type " ++ t))) := by
  refine ⟨?_, ?_, ?_, ?_, ?_, ?_⟩
  · intro row key b h
    simp [serializeCell, h]
  · intro n
    simp [parseCell]
  · intro row key v h hv
    have hser : serializeCell row key = .text (jsonStringify v) := by
      rcases hv with ⟨fs, rfl⟩ | ⟨xs, rfl⟩ <;> simp [serializeCell, h]
    refine ⟨hser, ?_, ?_⟩ <;>
      · rw [hser]
        simp [parseCell, jsonParse_stringify v]
  · intro row key s h
    exact ⟨by simp [serializeCell, h], by simp [parseCell, sqlToJson]⟩
  · intro row key n h
    exact ⟨by simp [serializeCell, h], by simp [parseCell, sqlToJson]⟩
  · intro t v ht
    simp only [List.mem_cons, not_or] at ht
    obtain ⟨h1, h2, h3, h4, h5, -⟩ := ht
    simp [parseCell, h1, h2, h3, h4, h5]

/-- Concrete instance of C7 with every hypothesis discharged: a boolean,
an object, an array, a string and a number cell round-trip through the
codec; decoding with the unknown tag `blob` fails. -/
theorem C7_codec_rules_witness :
    serializeCell [("ok", .bool true)] "ok" = .int 1 ∧
    parseCell "boolean" (.int 1) = .ok (.bool true) ∧
    parseCell "boolean" (.int 0) = .ok (.bool false) ∧
    parseCell "json" (serializeCell [("j", .obj [("a", .num 1)])] "j") =
      .ok (.obj [("a", .num 1)]) ∧
    parseCell "jsonArray" (serializeCell [("l", .arr [.str "x"])] "l") =
      .ok (.arr [.str "x"]) ∧
    serializeCell [("s", .str "hi")] "s" = .text "hi" ∧
    parseCell "string" (.text "hi") = .ok (.str "hi") ∧
    serializeCell [("n", .num 7)] "n" = .int 7 ∧
    parseCell "number" (.int 7) = .ok (.num 7) ∧
    parseCell "blob" (.int 1) =
      .error (.jsError "Unsupported column type blob") := by
  refine ⟨C7_codec_rules.1 [("ok", .bool true)] "ok" true (by decide),
    C7_codec_rules.2.1 1, C7_codec_rules.2.1 0,
    (C7_codec_rules.2.2.1 [("j", .obj [("a", .num 1)])] "j"
      (.obj [("a", .num 1)]) (by decide) (Or.inl ⟨_, rfl⟩)).2.1,
    (C7_codec_rules.2.2.1 [("l", .arr [.str "x"])] "l"
      (.arr [.str "x"]) (by decide) (Or.inr ⟨_, rfl⟩)).2.2,
    (C7_codec_rules.2.2.2.1 [("s", .str "hi")] "s" "hi" (by decide)).1,
    (C7_codec_rules.2.2.2.1 [("s", .str "hi")] "s" "hi" (by decide)).2,
    (C7_codec_rules.2.2.2.2.1 [("n", .num 7)] "n" 7 (by decide)).1,
    (C7_codec_rules.2.2.2.2.1 [("n", .num 7)] "n" 7 (by decide)).2,
    C7_codec_rules.2.2.2.2.2 "blob" (.int 1) (by decide)⟩

theorem addColumnSuffix_inj {a b : String}
    (h : addColumnSuffix a = addColumnSuffix b) : a = b := by
  have hd : a.data ++ "_col".data = b.data ++ "_col".data := by
    have := congrArg String.data h
    simpa [addColumnSuffix, String.data_append] using this
  exact String.ext (List.append_cancel_right hd)

/-- A logical value matches its column's declared type. -/
def cellConforms (t : String) (v : JsonValue) : Bool :=
  if t = "string" then (match v with | .str _ => true | _ => false)
  else if t = "number" then (match v with | .num _ => true | _ => false)
  else if t = "boolean" then (match v with | .bool _ => true | _ => false)
  else if t = "json" then (match v with | .obj _ => true | _ => false)
  else if t = "jsonArray" then (match v with | .arr _ => true | _ => false)
  else false

/-- Every present, non-null value of a logical row matches its column's
declared type (rows written through `write` satisfy this: the facade
validates the data against the table config before inserting). -/
def rowConforms (cfg : TableCfg) (row : Row) : Bool :=
  cfg.columns.all (fun col =>
    match row.lookup col.key with
    | none => true
    | some .null => true
    | some v => cellConforms col.type v)

/-- The physical record stored for a logical row by `_write`'s insert:
the suffixed schema columns zipped with the serialized values. -/
def serializedAssoc (cfg : TableCfg) (row : Row) :
    List (String × SqlValue) :=
  (cfg.columns.map (fun c => addColumnSuffix c.key)).zip
    (serializeRow row cfg)

theorem serializeCell_conform_parse (lr : Row) (key t : String)
    (w : JsonValue) (hl : lr.lookup key = some w)
    (hw : cellConforms t w = true) :
    ∃ jv, parseCell t (serializeCell lr key) = .ok jv ∧ jv ≠ .null := by
  by_cases h1 : t = "string"
  · subst h1
    obtain ⟨x, rfl⟩ : ∃ x, w = JsonValue.str x := by
      cases w <;> first | exact ⟨_, rfl⟩ | simp [cellConforms] at hw
    exact ⟨.str x, by simp [serializeCell, hl, parseCell, sqlToJson], by simp⟩
  · by_cases h2 : t = "number"
    · subst h2
      obtain ⟨x, rfl⟩ : ∃ x, w = JsonValue.num x := by
        cases w <;> first | exact ⟨_, rfl⟩ | simp [cellConforms] at hw
      exact ⟨.num x, by simp [serializeCell, hl, parseCell, sqlToJson], by simp⟩
    · by_cases h3 : t = "boolean"
      · subst h3
        obtain ⟨b, rfl⟩ : ∃ b, w = JsonValue.bool b := by
          cases w <;> first | exact ⟨_, rfl⟩ | simp [cellConforms] at hw
        refine ⟨.bool (!(SqlValue.int (if b then 1 else 0) == SqlValue.int 0)),
          ?_, by simp⟩
        simp [serializeCell, hl, parseCell]
      · by_cases h4 : t = "json"
        · subst h4
          obtain ⟨fs, rfl⟩ : ∃ fs, w = JsonValue.obj fs := by
            cases w <;> first | exact ⟨_, rfl⟩ | simp [cellConforms] at hw
          refine ⟨.obj fs, ?_, by simp⟩
          simp [serializeCell, hl, parseCell,
            jsonParse_stringify (JsonValue.obj fs)]
        · by_cases h5 : t = "jsonArray"
          · subst h5
            obtain ⟨xs, rfl⟩ : ∃ xs, w = JsonValue.arr xs := by
              cases w <;> first | exact ⟨_, rfl⟩ | simp [cellConforms] at hw
            refine ⟨.arr xs, ?_, by simp⟩
            simp [serializeCell, hl, parseCell,
              jsonParse_stringify (JsonValue.arr xs)]
          · simp [cellConforms, h1, h2, h3, h4, h5] at hw

theorem serializeCell_ne_null (lr : Row) (key : String)
    (h : serializeCell lr key ≠ .null) :
    ∃ w, lr.lookup key = some w ∧ w ≠ .null := by
  unfold serializeCell at h
  cases hl : lr.lookup key with
  | none => rw [hl] at h; simp at h
  | some w =>
    rw [hl] at h
    cases w with
    | null => simp at h
    | _ => exact ⟨_, rfl, by simp⟩

theorem lookup_serializedAssoc (lr : Row) :
    ∀ (cols : List ColumnCfg), (cols.map (fun c => c.key)).Nodup →
    ∀ col ∈ cols,
      ((cols.map (fun c => addColumnSuffix c.key)).zip
        (cols.map (fun c => serializeCell lr c.key))).lookup
        (addColumnSuffix col.key) = some (serializeCell lr col.key) := by
  intro cols
  induction cols with
  | nil => intro _ col hcol; simp at hcol
  | cons c tl ih =>
    intro hnd col hcol
    simp only [List.map_cons, List.nodup_cons] at hnd
    rcases List.mem_cons.1 hcol with rfl | htl
    · simp [List.lookup]
    · have hne : c.key ≠ col.key := by
        intro he
        exact hnd.1 (he ▸ List.mem_map.2 ⟨col, htl, rfl⟩)
      have hbne : (addColumnSuffix col.key == addColumnSuffix c.key) = false := by
        simp only [beq_eq_false_iff_ne, ne_eq]
        intro he
        exact hne (addColumnSuffix_inj he).symm
      simp only [List.map_cons, List.zip_cons_cons, List.lookup, hbne]
      exact ih hnd.2 col htl

theorem parseRow_fold (r : List (String × SqlValue)) :
    ∀ (cols : List ColumnCfg) (acc : Row),
    (∀ col ∈ cols, ∀ v, r.lookup (addColumnSuffix col.key) = some v →
      v ≠ .null → ∃ jv, parseCell col.type v = .ok jv ∧ jv ≠ .null) →
    ∃ out, cols.foldlM (parseRowStep r) acc = .ok out ∧
      ∀ p ∈ out, p ∈ acc ∨ ∃ col ∈ cols, p.1 = col.key ∧
        ∃ v, r.lookup (addColumnSuffix col.key) = some v ∧ v ≠ .null ∧
          parseCell col.type v = .ok p.2 ∧ p.2 ≠ .null := by
  intro cols
  induction cols with
  | nil =>
    intro acc _
    exact ⟨acc, rfl, fun p hp => Or.inl hp⟩
  | cons c tl ih =>
    intro acc hcells
    have hstep : ∀ out1, parseRowStep r acc c = .ok out1 →
        (∀ p ∈ out1, p ∈ acc ∨ (p.1 = c.key ∧
          ∃ v, r.lookup (addColumnSuffix c.key) = some v ∧ v ≠ .null ∧
            parseCell c.type v = .ok p.2 ∧ p.2 ≠ .null)) →
        ∃ out, (c :: tl).foldlM (parseRowStep r) acc = .ok out ∧
          ∀ p ∈ out, p ∈ acc ∨ ∃ col ∈ c :: tl, p.1 = col.key ∧
            ∃ v, r.lookup (addColumnSuffix col.key) = some v ∧ v ≠ .null ∧
              parseCell col.type v = .ok p.2 ∧ p.2 ≠ .null := by
      intro out1 h1 hmem1
      obtain ⟨out, hout, hmem⟩ := ih out1
        (fun col hcol v hv hnn => hcells col (List.mem_cons_of_mem c hcol) v hv hnn)
      refine ⟨out, ?_, ?_⟩
      · simp only [List.foldlM_cons, h1]
        exact hout
      · intro p hp
        rcases hmem p hp with hin1 | ⟨col, hcol, hk, v, hv, hnn, hok, hpn⟩
        · rcases hmem1 p hin1 with hacc | ⟨hk, v, hv, hnn, hok, hpn⟩
          · exact Or.inl hacc
          · exact Or.inr ⟨c, List.mem_cons_self c tl, hk, v, hv, hnn, hok, hpn⟩
        · exact Or.inr ⟨col, List.mem_cons_of_mem c hcol, hk, v, hv, hnn, hok, hpn⟩
    cases hl : r.lookup (addColumnSuffix c.key) with
    | none =>
      exact hstep acc (by simp [parseRowStep, hl]) (fun p hp => Or.inl hp)
    | some v =>
      cases v with
      | null =>
        exact hstep acc (by simp [parseRowStep, hl]) (fun p hp => Or.inl hp)
      | int n =>
        obtain ⟨jv, hok, hnn⟩ :=
          hcells c (List.mem_cons_self c tl) (.int n) hl (by simp)
        refine hstep (acc ++ [(c.key, jv)])
          (by simp [parseRowStep, hl, hok, Except.map]) ?_
        intro p hp
        rcases List.mem_append.1 hp with hacc | hone
        · exact Or.inl hacc
        · simp at hone
          subst hone
          exact Or.inr ⟨rfl, .int n, hl, by simp, hok, hnn⟩
      | text s =>
        obtain ⟨jv, hok, hnn⟩ :=
          hcells c (List.mem_cons_self c tl) (.text s) hl (by simp)
        refine hstep (acc ++ [(c.key, jv)])
          (by simp [parseRowStep, hl, hok, Except.map]) ?_
        intro p hp
        rcases List.mem_append.1 hp with hacc | hone
        · exact Or.inl hacc
        · simp at hone
          subst hone
          exact Or.inr ⟨rfl, .text s, hl, by simp, hok, hnn⟩

theorem parseData_ok (cfg : TableCfg) :
    ∀ (rows : List (List (String × SqlValue))),
    (∀ r ∈ rows, ∃ dr, parseRow cfg r = .ok dr) →
    ∃ ds, parseData rows cfg = .ok ds := by
  intro rows
  induction rows with
  | nil => intro _; exact ⟨[], rfl⟩
  | cons r tl ih =>
    intro h
    obtain ⟨dr, hdr⟩ := h r (by simp)
    obtain ⟨ds, hds⟩ := ih (fun x hx => h x (by simp [hx]))
    refine ⟨dr :: ds, ?_⟩
    show (r :: tl).mapM (fun row => parseRow cfg row) = _
    rw [List.mapM_cons]
    simp only [hdr]
    have hds2 : tl.mapM (fun row => parseRow cfg row) = .ok ds := hds
    rw [hds2]
    rfl

/-- C8.  Sparse-row decode invariant: decoding physical rows that were
stored by this core's write path (serializations of logical rows that
match the schema) succeeds, and every decoded row omits entirely each
column whose physical value is NULL or missing and never binds any key
to an explicit JSON null. -/
theorem C8_sparse_decode (cfg : TableCfg)
    (hkeys : (cfg.columns.map (fun c => c.key)).Nodup)
    (rows : List (List (String × SqlValue)))
    (himg : ∀ r ∈ rows, ∃ lr, rowConforms cfg lr = true ∧
      r = serializedAssoc cfg lr) :
    (∃ ds, parseData rows cfg = .ok ds) ∧
    (∀ r ∈ rows, ∃ dr, parseRow cfg r = .ok dr ∧
      (∀ p ∈ dr, p.2 ≠ JsonValue.null) ∧
      (∀ col ∈ cfg.columns,
        (r.lookup (addColumnSuffix col.key) = none ∨
          r.lookup (addColumnSuffix col.key) = some .null) →
        ∀ v, (col.key, v) ∉ dr)) := by
  have hrow : ∀ r ∈ rows, ∃ dr, parseRow cfg r = .ok dr ∧
      (∀ p ∈ dr, p.2 ≠ JsonValue.null) ∧
      (∀ col ∈ cfg.columns,
        (r.lookup (addColumnSuffix col.key) = none ∨
          r.lookup (addColumnSuffix col.key) = some .null) →
        ∀ v, (col.key, v) ∉ dr) := by
    intro r hr
    obtain ⟨lr, hconf, rfl⟩ := himg r hr
    have hcells : ∀ col ∈ cfg.columns, ∀ v,
        (serializedAssoc cfg lr).lookup (addColumnSuffix col.key) = some v →
        v ≠ .null → ∃ jv, parseCell col.type v = .ok jv ∧ jv ≠ .null := by
      intro col hcol v hv hnn
      have hlook := lookup_serializedAssoc lr cfg.columns hkeys col hcol
      have hveq : v = serializeCell lr col.key := by
        have : some v = some (serializeCell lr col.key) := hv ▸ hlook
        injection this
      subst hveq
      obtain ⟨w, hw, hwnn⟩ := serializeCell_ne_null lr col.key hnn
      have hcw : cellConforms col.type w = true := by
        have := (List.all_eq_true.1 hconf) col hcol
        rw [hw] at this
        cases w with
        | null => exact absurd rfl hwnn
        | _ => simpa using this
      exact serializeCell_conform_parse lr col.key col.type w hw hcw
    obtain ⟨out, hout, hmem⟩ := parseRow_fold (serializedAssoc cfg lr)
      cfg.columns [] hcells
    refine ⟨out, hout, ?_, ?_⟩
    · intro p hp
      rcases hmem p hp with hin | ⟨col, _, _, v, _, _, _, hpn⟩
      · simp at hin
      · exact hpn
    · intro col hcol hnull v hv
      rcases hmem (col.key, v) hv with hin | ⟨col2, _, hk, v2, hv2, hnn2, -, -⟩
      · simp at hin
      · have hk2 : col.key = col2.key := hk
        have hsame : addColumnSuffix col.key = addColumnSuffix col2.key := by
          rw [hk2]
        rw [← hsame] at hv2
        rcases hnull with hn | hn
        · rw [hn] at hv2; exact Option.noConfusion hv2
        · rw [hn] at hv2
          exact hnn2 (Option.some.inj hv2).symm
  exact ⟨parseData_ok cfg rows (fun r hr => ⟨(hrow r hr).choose,
    (hrow r hr).choose_spec.1⟩), hrow⟩

/-- Concrete instance of C8 with every hypothesis discharged: decoding
the stored form of a conforming sparse row of the `users` table — the
`name` value is absent, so its cell is NULL — yields a row that omits
`name` and holds no null. -/
theorem C8_sparse_decode_witness :
    (∃ ds, parseData [serializedAssoc usersCfg [("id", .num 1)]]
      usersCfg = .ok ds) ∧
    parseRow usersCfg (serializedAssoc usersCfg [("id", .num 1)]) =
      .ok [("id", .num 1)] ∧
    (serializedAssoc usersCfg [("id", .num 1)]).lookup
      (addColumnSuffix "name") = some .null := by
  have h := C8_sparse_decode usersCfg (by decide)
    [serializedAssoc usersCfg [("id", .num 1)]]
    (fun r hr => ⟨[("id", .num 1)], by decide, by
      simp at hr
      exact hr⟩)
  exact ⟨h.1, by decide, by decide⟩

theorem pick_isSome (k : String) (l : List TableCfg) :
    ∀ acc : Option TableCfg,
    (l.foldl (fun acc c => if c.key = k then some c else acc) acc).isSome =
      (acc.isSome || l.any (fun c => c.key = k)) := by
  induction l with
  | nil => intro acc; simp
  | cons c tl ih =>
    intro acc
    by_cases h : c.key = k
    · simp [List.foldl_cons, h, ih (some c)]
    · simp [List.foldl_cons, h, ih acc]

theorem activeCfg_isSome (db : Db) (k : String) :
    (activeCfg db k).isSome = db.cfgs.any (fun c => c.key = k) := by
  have := pick_isSome k db.cfgs none
  simpa [activeCfg] using this

theorem hshCfg_key (c : TableCfg) : (hshCfg c).key = c.key := by
  unfold hshCfg
  split <;> rfl

theorem hshCfg_columns (c : TableCfg) : (hshCfg c).columns = c.columns := by
  unfold hshCfg
  split <;> rfl

/-- C4.  Case analysis of `createOrExtendTable`: an unregistered key
creates the physical table and persists the (hash-stamped) config as its
first version; a registered key whose stored columns are a strict prefix
of the new columns persists the new version and alters exactly the added
columns into the physical table; identical columns are a complete no-op
(the database is unchanged); stored columns that are not a prefix of the
new columns fail with `SchemaIncompatible`. -/
theorem C4_createOrExtendTable (db : Db) (cfg : TableCfg) :
    (activeCfg db cfg.key = none →
      createOrExtendTable db cfg = .ok (createTable db (hshCfg cfg) cfg) ∧
      (createTable db (hshCfg cfg) cfg).cfgs =
        db.cfgs ++ [hshCfg (hshCfg cfg)] ∧
      (createTable db (hshCfg cfg) cfg).tables = db.tables ++
        [(addTableSuffix cfg.key,
          { cols := cfg.columns.map (fun c => addColumnSuffix c.key),
            rows := [] })]) ∧
    (∀ old, activeCfg db cfg.key = some old →
      old.columns = cfg.columns.take old.columns.length →
      old.columns.length < cfg.columns.length →
      createOrExtendTable db cfg =
        .ok (alterAddColumns (insertCfg db (hshCfg cfg)) cfg.key
          (cfg.columns.drop old.columns.length))) ∧
    (∀ old, activeCfg db cfg.key = some old →
      old.columns = cfg.columns →
      createOrExtendTable db cfg = .ok db) ∧
    (∀ old, activeCfg db cfg.key = some old →
      cfg.columns.take old.columns.length ≠ old.columns →
      createOrExtendTable db cfg = .error (.schemaIncompatible cfg.key)) := by
  refine ⟨?_, ?_, ?_, ?_⟩
  · intro hact
    have hany : db.cfgs.any (fun c => c.key = cfg.key) = false := by
      have := activeCfg_isSome db cfg.key
      rw [hact] at this
      simpa using this.symm
    refine ⟨?_, rfl, rfl⟩
    show (throwWhenTableIsNotCompatible db cfg).bind _ = _
    rw [show throwWhenTableIsNotCompatible db cfg = .ok () from by
      unfold throwWhenTableIsNotCompatible; rw [hact]]
    show (if db.cfgs.any (fun c => c.key = cfg.key) then
      extendTable db (hshCfg cfg)
      else .ok (createTable db (hshCfg cfg) cfg)) = _
    rw [hany]
    rfl
  · intro old hact hpre hlt
    have hany : db.cfgs.any (fun c => c.key = cfg.key) = true := by
      have := activeCfg_isSome db cfg.key
      rw [hact] at this
      simpa using this.symm
    have hcomp : throwWhenTableIsNotCompatible db cfg = .ok () := by
      unfold throwWhenTableIsNotCompatible
      rw [hact]
      dsimp only
      rw [if_pos hpre.symm]
    show (throwWhenTableIsNotCompatible db cfg).bind _ = _
    rw [hcomp]
    show (if db.cfgs.any (fun c => c.key = cfg.key) then
      extendTable db (hshCfg cfg)
      else .ok (createTable db (hshCfg cfg) cfg)) = _
    rw [hany, if_pos rfl]
    unfold extendTable
    rw [hshCfg_key, hact]
    dsimp only
    rw [hshCfg_columns]
    have hne : (cfg.columns.drop old.columns.length).isEmpty = false := by
      rw [List.isEmpty_eq_false_iff_exists_mem]
      have : old.columns.length < cfg.columns.length := hlt
      obtain ⟨x, hx⟩ := List.exists_mem_of_length_pos
        (l := cfg.columns.drop old.columns.length) (by simp; omega)
      exact ⟨x, hx⟩
    rw [hne]
    rfl
  · intro old hact heq
    have hany : db.cfgs.any (fun c => c.key = cfg.key) = true := by
      have := activeCfg_isSome db cfg.key
      rw [hact] at this
      simpa using this.symm
    have hcomp : throwWhenTableIsNotCompatible db cfg = .ok () := by
      unfold throwWhenTableIsNotCompatible
      rw [hact]
      dsimp only
      rw [if_pos (by rw [heq]; simp)]
    show (throwWhenTableIsNotCompatible db cfg).bind _ = _
    rw [hcomp]
    show (if db.cfgs.any (fun c => c.key = cfg.key) then
      extendTable db (hshCfg cfg)
      else .ok (createTable db (hshCfg cfg) cfg)) = _
    rw [hany, if_pos rfl]
    unfold extendTable
    rw [hshCfg_key, hact]
    dsimp only
    rw [hshCfg_columns]
    have hemp : (cfg.columns.drop old.columns.length).isEmpty = true := by
      rw [heq]
      simp
    rw [hemp]
    rfl
  · intro old hact hne
    show (throwWhenTableIsNotCompatible db cfg).bind _ = _
    rw [show throwWhenTableIsNotCompatible db cfg =
        .error (.schemaIncompatible cfg.key) from by
      unfold throwWhenTableIsNotCompatible
      rw [hact]
      dsimp only
      rw [if_neg hne]]
    rfl

/-- The `users` config extended with an `email` column. -/
def usersCfgExt : TableCfg :=
  { usersCfg with
    columns := usersCfg.columns ++ [{ key := "email", type := "string" }] }

/-- A `users` config with its existing columns reordered. -/
def usersCfgBad : TableCfg :=
  { usersCfg with
    columns := [{ key := "id", type := "number" },
                { key := "_hash", type := "string" },
                { key := "name", type := "string" }] }

/-- Concrete instances of the four C4 cases with every hypothesis
discharged: creation, extension by one column, no-op, and
`SchemaIncompatible` on a reordered schema. -/
theorem C4_createOrExtendTable_witness :
    createOrExtendTable db0 usersCfg =
      .ok (createTable db0 (hshCfg usersCfg) usersCfg) ∧
    createOrExtendTable dbUsers usersCfgExt =
      .ok (alterAddColumns (insertCfg dbUsers (hshCfg usersCfgExt)) "users"
        [{ key := "email", type := "string" }]) ∧
    createOrExtendTable dbUsers usersCfg = .ok dbUsers ∧
    createOrExtendTable dbUsers usersCfgBad =
      .error (.schemaIncompatible "users") := by
  refine ⟨((C4_createOrExtendTable db0 usersCfg).1 (by decide)).1, ?_, ?_, ?_⟩
  · exact (C4_createOrExtendTable dbUsers usersCfgExt).2.1
      (hshCfg usersCfg) (by decide) (by decide) (by decide)
  · exact (C4_createOrExtendTable dbUsers usersCfg).2.2.1
      (hshCfg usersCfg) (by decide) (by decide)
  · exact (C4_createOrExtendTable dbUsers usersCfgBad).2.2.2
      (hshCfg usersCfg) (by decide) (by decide)

/-- The per-table row loop with every row attempted: rows are processed
in order; a success threads the updated database on; a failure appends
its formatted message to the error store and the loop CONTINUES with the
next row — nothing is rolled back and no row is skipped. -/
def attemptRowsLoop (eng : InsertEngine) (tableName : String)
    (tableCfg : TableCfg) (db : Db) (errs : List String) :
    List Row → Db × List String
  | [] => (db, errs)
  | row :: rest =>
    let tableKeyWithSuffix := addTableSuffix tableName
    let query := insertQuery tableKeyWithSuffix tableCfg
    let serializedRow := serializeRow row tableCfg
    match eng db tableKeyWithSuffix
        (tableCfg.columns.map (fun c => addColumnSuffix c.key))
        query serializedRow with
    | .done db2 => attemptRowsLoop eng tableName tableCfg db2 errs rest
    | .thrown _ msg =>
      attemptRowsLoop eng tableName tableCfg db
        (errs ++ ["Error inserting into table " ++ tableName ++ ": " ++ msg])
        rest

/-- The table loop over `attemptRowsLoop`. -/
def attemptTablesLoop (eng : InsertEngine) (db : Db) (errs : List String) :
    Rljson → Except DbError (Db × List String)
  | [] => .ok (db, errs)
  | (tableName, tableData) :: rest =>
    match activeCfg db tableName with
    | none => .error (.tableNotFound tableName)
    | some tableCfg =>
      let p := attemptRowsLoop eng tableName tableCfg db errs tableData.data
      attemptTablesLoop eng p.1 p.2 rest

/-- An execution primitive that never throws the primary-key constraint
code — the defining property of `INSERT OR IGNORE`, under which a
primary-key collision is a silent success rather than an exception. -/
def engineNeverPK (eng : InsertEngine) : Prop :=
  ∀ db t cols q vals code msg,
    eng db t cols q vals = .thrown code msg →
    code ≠ "SQLITE_CONSTRAINT_PRIMARYKEY"

theorem writeRowsLoop_eq_attempt (eng : InsertEngine)
    (hpk : engineNeverPK eng) (tableName : String) (tableCfg : TableCfg) :
    ∀ (rows : List Row) (db : Db) (errs : List String),
      writeRowsLoop eng tableName tableCfg db errs rows =
        attemptRowsLoop eng tableName tableCfg db errs rows := by
  intro rows
  induction rows with
  | nil => intro db errs; rfl
  | cons row rest ih =>
    intro db errs
    show (match eng db (addTableSuffix tableName)
        (tableCfg.columns.map (fun c => addColumnSuffix c.key))
        (insertQuery (addTableSuffix tableName) tableCfg)
        (serializeRow row tableCfg) with
      | .done db2 => writeRowsLoop eng tableName tableCfg db2 errs rest
      | .thrown code msg =>
        if code = "SQLITE_CONSTRAINT_PRIMARYKEY" then (db, errs)
        else writeRowsLoop eng tableName tableCfg db
          (errs ++ ["Error inserting into table " ++ tableName ++ ": " ++ msg])
          rest) = _
    cases heng : eng db (addTableSuffix tableName)
        (tableCfg.columns.map (fun c => addColumnSuffix c.key))
        (insertQuery (addTableSuffix tableName) tableCfg)
        (serializeRow row tableCfg) with
    | done db2 =>
      show writeRowsLoop eng tableName tableCfg db2 errs rest = _
      rw [ih db2 errs]
      show _ = (match eng db (addTableSuffix tableName)
          (tableCfg.columns.map (fun c => addColumnSuffix c.key))
          (insertQuery (addTableSuffix tableName) tableCfg)
          (serializeRow row tableCfg) with
        | .done db2 => attemptRowsLoop eng tableName tableCfg db2 errs rest
        | .thrown _ msg => attemptRowsLoop eng tableName tableCfg db
            (errs ++ ["Error inserting into table " ++ tableName ++ ": " ++ msg])
            rest)
      rw [heng]
    | thrown code msg =>
      have hne : code ≠ "SQLITE_CONSTRAINT_PRIMARYKEY" := hpk _ _ _ _ _ _ _ heng
      show (if code = "SQLITE_CONSTRAINT_PRIMARYKEY" then (db, errs)
        else writeRowsLoop eng tableName tableCfg db
          (errs ++ ["Error inserting into table " ++ tableName ++ ": " ++ msg])
          rest) = _
      rw [if_neg hne, ih]
      show _ = (match eng db (addTableSuffix tableName)
          (tableCfg.columns.map (fun c => addColumnSuffix c.key))
          (insertQuery (addTableSuffix tableName) tableCfg)
          (serializeRow row tableCfg) with
        | .done db2 => attemptRowsLoop eng tableName tableCfg db2 errs rest
        | .thrown _ msg => attemptRowsLoop eng tableName tableCfg db
            (errs ++ ["Error inserting into table " ++ tableName ++ ": " ++ msg])
            rest)
      rw [heng]

theorem writeTablesLoop_eq_attempt (eng : InsertEngine)
    (hpk : engineNeverPK eng) :
    ∀ (data : Rljson) (db : Db) (errs : List String),
      writeTablesLoop eng db errs data = attemptTablesLoop eng db errs data := by
  intro data
  induction data with
  | nil => intro db errs; rfl
  | cons entry rest ih =>
    intro db errs
    obtain ⟨tableName, tableData⟩ := entry
    show (match activeCfg db tableName with
      | none => Except.error (DbError.tableNotFound tableName)
      | some tableCfg =>
        let p := writeRowsLoop eng tableName tableCfg db errs tableData.data
        writeTablesLoop eng p.1 p.2 rest) = _
    cases hcfg : activeCfg db tableName with
    | none =>
      show Except.error (DbError.tableNotFound tableName) = _
      show _ = (match activeCfg db tableName with
        | none => Except.error (DbError.tableNotFound tableName)
        | some tableCfg =>
          let p := attemptRowsLoop eng tableName tableCfg db errs tableData.data
          attemptTablesLoop eng p.1 p.2 rest)
      rw [hcfg]
    | some tableCfg =>
      dsimp only
      rw [writeRowsLoop_eq_attempt eng hpk tableName tableCfg tableData.data db errs,
        ih]
      show _ = (match activeCfg db tableName with
        | none => Except.error (DbError.tableNotFound tableName)
        | some tableCfg =>
          let p := attemptRowsLoop eng tableName tableCfg db errs tableData.data
          attemptTablesLoop eng p.1 p.2 rest)
      rw [hcfg]

/-- C3.  Write error accumulation, for every execution primitive with
`INSERT OR IGNORE` semantics (no primary-key exception): `_write`
attempts every row of every table in order (the behaviour of
`attemptRowsLoop`, to which the write loop is equal), collects the
formatted message of every failing row while continuing with the
remaining rows and keeping every successful insert (none are rolled
back), and fails exactly once at the end — with the single aggregate
message listing every collected row-level error — iff any row failed. -/
theorem C3_write_error_accumulation (eng : InsertEngine)
    (hpk : engineNeverPK eng) (db : Db) (data : Rljson) (db2 : Db)
    (errs : List String)
    (hx : throwWhenTablesDoNotExist db data = .ok ())
    (hm : throwWhenTableDataDoesNotMatchCfg db data = .ok ())
    (hloop : attemptTablesLoop eng db [] (hshData data) = .ok (db2, errs)) :
    write eng db data =
      if errs.length > 0 then
        .error (.jsError ("Errors occurred: " ++ String.intercalate ", " errs))
      else .ok db2 := by
  show (throwWhenTablesDoNotExist db data).bind (fun _ =>
    (throwWhenTableDataDoesNotMatchCfg db data).bind (fun _ =>
      match writeTablesLoop eng db [] (hshData data) with
      | .error e => .error e
      | .ok (db2, errs) =>
        if errs.length > 0 then
          .error (.jsError ("Errors occurred: " ++ String.intercalate ", " errs))
        else .ok db2)) = _
  rw [hx, hm]
  show (match writeTablesLoop eng db [] (hshData data) with
    | .error e => Except.error e
    | .ok (db2, errs) =>
      if errs.length > 0 then
        .error (.jsError ("Errors occurred: " ++ String.intercalate ", " errs))
      else .ok db2) = _
  rw [writeTablesLoop_eq_attempt eng hpk, hloop]

/-- A row of the C3 scenario whose insert the failing engine rejects. -/
def rowMid : Row := [("id", .num 99), ("name", .str "Mid")]

/-- An execution primitive that throws a (non-primary-key) error for any
row carrying the integer 99 and otherwise behaves like the model
engine. -/
def failEngine : InsertEngine := fun db t cols q vals =>
  if vals.contains (SqlValue.int 99) then .thrown "SQLITE_ERROR" "boom"
  else modelEngine db t cols q vals

theorem failEngine_no_pk : engineNeverPK failEngine := by
  intro db t cols q vals code msg h
  unfold failEngine at h
  split at h
  · injection h with h1 h2
    subst h1
    decide
  · unfold modelEngine at h
    split at h
    · injection h with h1 h2
      subst h1
      decide
    · exact ExecResult.noConfusion h

/-- The final state and error store of the all-rows attempt of the C3
scenario: Alice, a failing middle row, then Bob. -/
def c3Attempt : Db × List String :=
  match attemptTablesLoop failEngine dbUsers []
      (hshData (usersWrite [rowAlice, rowMid, rowBob])) with
  | .ok p => p
  | .error _ => (db0, [])

/-- Concrete instance of C3 with every hypothesis discharged: the middle
row of three fails; the write reports the single aggregate error listing
that row's message, while the first and third rows are inserted and stay
inserted (row count 2) — nothing is rolled back. -/
theorem C3_write_error_accumulation_witness :
    write failEngine dbUsers (usersWrite [rowAlice, rowMid, rowBob]) =
      .error (.jsError
        "Errors occurred: Error inserting into table users: boom") ∧
    c3Attempt.2 = ["Error inserting into table users: boom"] ∧
    physRowCount c3Attempt.1 "users" = 2 := by
  have h := C3_write_error_accumulation failEngine failEngine_no_pk dbUsers
    (usersWrite [rowAlice, rowMid, rowBob]) c3Attempt.1 c3Attempt.2
    (by decide) (by decide) (by decide)
  exact ⟨h.trans (by decide), by decide, by decide⟩

/-! ## C2: idempotence of `write` under `INSERT OR IGNORE` -/

/-- The physical association list bound for one row by `_write`'s loop:
the suffixed column names paired with the serialized values, as the
statement stores them. -/
def assocOf (cfg : TableCfg) (row : Row) : List (String × SqlValue) :=
  (cfg.columns.map (fun c => addColumnSuffix c.key)).zip (serializeRow row cfg)

/-- The database transition performed by one successful model-engine
insert of one row. -/
def writeStep (tableName : String) (cfg : TableCfg) (db : Db) (row : Row) :
    Db :=
  updateTable db (addTableSuffix tableName)
    (fun pt => insertOrIgnoreRows pt (assocOf cfg row))

theorem find_map_update (l : List (String × PhysTable)) (k : String)
    (f : PhysTable → PhysTable) :
    (l.map (fun p => if p.1 = k then (p.1, f p.2) else p)).find?
        (fun p => p.1 = k) =
      (l.find? (fun p => p.1 = k)).map (fun p => (p.1, f p.2)) := by
  induction l with
  | nil => rfl
  | cons a tl ih =>
    by_cases h : a.1 = k
    · rw [List.map_cons, if_pos h,
        List.find?_cons_of_pos _ (by simp [h]),
        List.find?_cons_of_pos _ (by simp [h])]
      rfl
    · rw [List.map_cons, if_neg h,
        List.find?_cons_of_neg _ (by simp [h]),
        List.find?_cons_of_neg _ (by simp [h]), ih]

theorem updateTable_find (db : Db) (k : String) (f : PhysTable → PhysTable) :
    (updateTable db k f).tables.find? (fun p => p.1 = k) =
      (db.tables.find? (fun p => p.1 = k)).map (fun p => (p.1, f p.2)) :=
  find_map_update db.tables k f

theorem updateTable_id (db : Db) (k : String) (f : PhysTable → PhysTable)
    (h : ∀ p ∈ db.tables, p.1 = k → f p.2 = p.2) :
    updateTable db k f = db := by
  have hmap : ∀ (l : List (String × PhysTable)),
      (∀ p ∈ l, p.1 = k → f p.2 = p.2) →
      l.map (fun p => if p.1 = k then (p.1, f p.2) else p) = l := by
    intro l
    induction l with
    | nil => intro _; rfl
    | cons a tl ih =>
      intro hl
      rw [List.map_cons, ih (fun p hp hk => hl p (List.mem_cons_of_mem a hp) hk)]
      by_cases hk : a.1 = k
      · rw [if_pos hk, hl a (List.mem_cons_self a tl) hk]
      · rw [if_neg hk]
  unfold updateTable
  rw [hmap db.tables h]

theorem updateTable_mem {db : Db} {k : String} {f : PhysTable → PhysTable}
    {q : String × PhysTable} (h : q ∈ (updateTable db k f).tables) :
    ∃ p ∈ db.tables, q = if p.1 = k then (p.1, f p.2) else p := by
  obtain ⟨p, hp, he⟩ := List.mem_map.mp h
  exact ⟨p, hp, he.symm⟩

theorem insertOrIgnoreRows_cols (pt : PhysTable)
    (a : List (String × SqlValue)) :
    (insertOrIgnoreRows pt a).cols = pt.cols := by
  simp only [insertOrIgnoreRows]
  split
  · split <;> rfl
  · rfl

theorem insertOrIgnoreRows_mem (pt : PhysTable)
    (a : List (String × SqlValue)) {r : List (String × SqlValue)}
    (h : r ∈ pt.rows) : r ∈ (insertOrIgnoreRows pt a).rows := by
  simp only [insertOrIgnoreRows]
  split
  · split
    · exact h
    · exact List.mem_append_left _ h
  · exact List.mem_append_left _ h

theorem insertOrIgnoreRows_establish (pt : PhysTable)
    (a : List (String × SqlValue))
    (hc : addColumnSuffix "_hash" ∈ pt.cols) :
    ∃ r ∈ (insertOrIgnoreRows pt a).rows,
      r.lookup (addColumnSuffix "_hash") =
        a.lookup (addColumnSuffix "_hash") := by
  simp only [insertOrIgnoreRows]
  rw [if_pos (by simp [hc])]
  by_cases hany : pt.rows.any
      (fun r => r.lookup (addColumnSuffix "_hash") ==
        a.lookup (addColumnSuffix "_hash")) = true
  · rw [if_pos hany]
    obtain ⟨r, hr, hbeq⟩ := List.any_eq_true.mp hany
    exact ⟨r, hr, by simpa using hbeq⟩
  · rw [if_neg hany]
    exact ⟨a, List.mem_append_right _ (by simp), rfl⟩

theorem insertOrIgnoreRows_skip (pt : PhysTable)
    (a : List (String × SqlValue))
    (hc : addColumnSuffix "_hash" ∈ pt.cols)
    (h : ∃ r ∈ pt.rows,
      r.lookup (addColumnSuffix "_hash") =
        a.lookup (addColumnSuffix "_hash")) :
    insertOrIgnoreRows pt a = pt := by
  obtain ⟨r, hr, heq⟩ := h
  simp only [insertOrIgnoreRows]
  rw [if_pos (by simp [hc]),
    if_pos (List.any_eq_true.mpr ⟨r, hr, by simp [heq]⟩)]

/-- Every physical table entry named by the suffixed table key carries
the reserved `_hash` column (the primary key of the rljson layout). -/
def hashColsOk (tableName : String) (db : Db) : Prop :=
  ∀ p ∈ db.tables, p.1 = addTableSuffix tableName →
    addColumnSuffix "_hash" ∈ p.2.cols

/-- Every physical table entry named by the suffixed table key already
stores a row whose hash cell equals the hash cell of the given row's
insert. -/
def rowStored (tableName : String) (cfg : TableCfg) (db : Db) (row : Row) :
    Prop :=
  ∀ p ∈ db.tables, p.1 = addTableSuffix tableName →
    ∃ r ∈ p.2.rows,
      r.lookup (addColumnSuffix "_hash") =
        (assocOf cfg row).lookup (addColumnSuffix "_hash")

theorem hashColsOk_step (tableName : String) (cfg : TableCfg) (db : Db)
    (row : Row) (h : hashColsOk tableName db) :
    hashColsOk tableName (writeStep tableName cfg db row) := by
  intro q hq hk
  obtain ⟨p, hp, he⟩ := updateTable_mem hq
  subst he
  by_cases hpk : p.1 = addTableSuffix tableName
  · rw [if_pos hpk]
    dsimp only
    rw [insertOrIgnoreRows_cols]
    exact h p hp hpk
  · rw [if_neg hpk] at hk
    exact absurd hk hpk

theorem rowStored_mono (tableName : String) (cfg : TableCfg) (db : Db)
    (row row2 : Row) (h : rowStored tableName cfg db row) :
    rowStored tableName cfg (writeStep tableName cfg db row2) row := by
  intro q hq hk
  obtain ⟨p, hp, he⟩ := updateTable_mem hq
  subst he
  by_cases hpk : p.1 = addTableSuffix tableName
  · rw [if_pos hpk]
    dsimp only
    obtain ⟨r, hr, hre⟩ := h p hp hpk
    exact ⟨r, insertOrIgnoreRows_mem _ _ hr, hre⟩
  · rw [if_neg hpk] at hk
    exact absurd hk hpk

theorem rowStored_establish (tableName : String) (cfg : TableCfg) (db : Db)
    (row : Row) (h : hashColsOk tableName db) :
    rowStored tableName cfg (writeStep tableName cfg db row) row := by
  intro q hq hk
  obtain ⟨p, hp, he⟩ := updateTable_mem hq
  subst he
  by_cases hpk : p.1 = addTableSuffix tableName
  · rw [if_pos hpk]
    dsimp only
    exact insertOrIgnoreRows_establish p.2 (assocOf cfg row) (h p hp hpk)
  · rw [if_neg hpk] at hk
    exact absurd hk hpk

theorem writeStep_skip (tableName : String) (cfg : TableCfg) (db : Db)
    (row : Row) (hcols : hashColsOk tableName db)
    (h : rowStored tableName cfg db row) :
    writeStep tableName cfg db row = db := by
  unfold writeStep
  exact updateTable_id db _ _ (fun p hp hk =>
    insertOrIgnoreRows_skip p.2 (assocOf cfg row) (hcols p hp hk) (h p hp hk))

theorem writeStep_cfgs (tableName : String) (cfg : TableCfg) (db : Db)
    (row : Row) : (writeStep tableName cfg db row).cfgs = db.cfgs := rfl

theorem foldl_writeStep_cfgs (tableName : String) (cfg : TableCfg) :
    ∀ (rows : List Row) (db : Db),
      (rows.foldl (writeStep tableName cfg) db).cfgs = db.cfgs := by
  intro rows
  induction rows with
  | nil => intro db; rfl
  | cons r rest ih =>
    intro db
    rw [List.foldl_cons, ih]
    rfl

theorem writeStep_find (tableName : String) (cfg : TableCfg) (db : Db)
    (row : Row) :
    (writeStep tableName cfg db row).tables.find?
        (fun p => p.1 = addTableSuffix tableName) =
      (db.tables.find? (fun p => p.1 = addTableSuffix tableName)).map
        (fun p => (p.1, insertOrIgnoreRows p.2 (assocOf cfg row))) :=
  updateTable_find db _ _

theorem foldl_writeStep_find_isSome (tableName : String) (cfg : TableCfg) :
    ∀ (rows : List Row) (db : Db),
      (db.tables.find? (fun p => p.1 = addTableSuffix tableName)).isSome =
        true →
      ((rows.foldl (writeStep tableName cfg) db).tables.find?
        (fun p => p.1 = addTableSuffix tableName)).isSome = true := by
  intro rows
  induction rows with
  | nil => intro db h; exact h
  | cons r rest ih =>
    intro db h
    obtain ⟨q, hq⟩ := Option.isSome_iff_exists.mp h
    rw [List.foldl_cons]
    refine ih _ ?_
    rw [writeStep_find, hq]
    rfl

theorem hashColsOk_foldl (tableName : String) (cfg : TableCfg) :
    ∀ (rows : List Row) (db : Db), hashColsOk tableName db →
      hashColsOk tableName (rows.foldl (writeStep tableName cfg) db) := by
  intro rows
  induction rows with
  | nil => intro db h; exact h
  | cons r rest ih =>
    intro db h
    rw [List.foldl_cons]
    exact ih _ (hashColsOk_step tableName cfg db r h)

theorem rowStored_foldl_mono (tableName : String) (cfg : TableCfg)
    (row : Row) :
    ∀ (rows : List Row) (db : Db), rowStored tableName cfg db row →
      rowStored tableName cfg (rows.foldl (writeStep tableName cfg) db)
        row := by
  intro rows
  induction rows with
  | nil => intro db h; exact h
  | cons r rest ih =>
    intro db h
    rw [List.foldl_cons]
    exact ih _ (rowStored_mono tableName cfg db row r h)

theorem rowStored_foldl_all (tableName : String) (cfg : TableCfg) :
    ∀ (rows : List Row) (db : Db), hashColsOk tableName db →
      ∀ row ∈ rows,
        rowStored tableName cfg (rows.foldl (writeStep tableName cfg) db)
          row := by
  intro rows
  induction rows with
  | nil => intro db _ row hrow; exact absurd hrow (List.not_mem_nil row)
  | cons r rest ih =>
    intro db h row hrow
    rw [List.foldl_cons]
    rcases List.mem_cons.mp hrow with hre | hrm
    · subst hre
      exact rowStored_foldl_mono tableName cfg row rest _
        (rowStored_establish tableName cfg db row h)
    · exact ih _ (hashColsOk_step tableName cfg db r h) row hrm

theorem foldl_writeStep_skip (tableName : String) (cfg : TableCfg) :
    ∀ (rows : List Row) (db : Db), hashColsOk tableName db →
      (∀ row ∈ rows, rowStored tableName cfg db row) →
      rows.foldl (writeStep tableName cfg) db = db := by
  intro rows
  induction rows with
  | nil => intro db _ _; rfl
  | cons r rest ih =>
    intro db h hall
    rw [List.foldl_cons, writeStep_skip tableName cfg db r h
      (hall r (List.mem_cons_self r rest))]
    exact ih db h (fun row hrow => hall row (List.mem_cons_of_mem r hrow))

theorem writeRowsLoop_model (tableName : String) (cfg : TableCfg) :
    ∀ (rows : List Row) (db : Db) (errs : List String),
      (db.tables.find? (fun p => p.1 = addTableSuffix tableName)).isSome =
        true →
      writeRowsLoop modelEngine tableName cfg db errs rows =
        (rows.foldl (writeStep tableName cfg) db, errs) := by
  intro rows
  induction rows with
  | nil => intro db errs _; rfl
  | cons row rest ih =>
    intro db errs h
    obtain ⟨q, hq⟩ := Option.isSome_iff_exists.mp h
    have heng : modelEngine db (addTableSuffix tableName)
        (cfg.columns.map (fun c => addColumnSuffix c.key))
        (insertQuery (addTableSuffix tableName) cfg)
        (serializeRow row cfg) =
        .done (writeStep tableName cfg db row) := by
      show (match db.tables.find? (fun p => p.1 = addTableSuffix tableName)
          with
        | none => ExecResult.thrown "SQLITE_ERROR"
            ("no such table: " ++ addTableSuffix tableName)
        | some _ => ExecResult.done
            (updateTable db (addTableSuffix tableName)
              (fun pt => insertOrIgnoreRows pt
                ((cfg.columns.map
                    (fun (c : ColumnCfg) => addColumnSuffix c.key)).zip
                  (serializeRow row cfg))))) = _
      rw [hq]
      rfl
    show (match modelEngine db (addTableSuffix tableName)
        (cfg.columns.map (fun c => addColumnSuffix c.key))
        (insertQuery (addTableSuffix tableName) cfg)
        (serializeRow row cfg) with
      | .done db2 => writeRowsLoop modelEngine tableName cfg db2 errs rest
      | .thrown code msg =>
        if code = "SQLITE_CONSTRAINT_PRIMARYKEY" then (db, errs)
        else writeRowsLoop modelEngine tableName cfg db
          (errs ++ ["Error inserting into table " ++ tableName ++ ": " ++
            msg])
          rest) = _
    rw [heng]
    show writeRowsLoop modelEngine tableName cfg
        (writeStep tableName cfg db row) errs rest =
      ((row :: rest).foldl (writeStep tableName cfg) db, errs)
    rw [List.foldl_cons]
    refine ih (writeStep tableName cfg db row) errs ?_
    rw [writeStep_find, hq]
    rfl

theorem write_single_model (db : Db) (name : String) (t : TableType)
    (cfg : TableCfg)
    (hreg : activeCfg db name = some cfg)
    (hfind : (db.tables.find?
      (fun p => p.1 = addTableSuffix name)).isSome = true)
    (hsub : t.data.all (fun r => rowMatchesCfg cfg r) = true) :
    write modelEngine db [(name, t)] =
      .ok ((hshTable t).data.foldl (writeStep name cfg) db) := by
  have h1 : throwWhenTablesDoNotExist db [(name, t)] = .ok () := by
    simp [throwWhenTablesDoNotExist, List.find?, hreg]
  have h2 : throwWhenTableDataDoesNotMatchCfg db [(name, t)] = .ok () := by
    simp [throwWhenTableDataDoesNotMatchCfg, hreg, hsub]
  have hloop : writeTablesLoop modelEngine db [] (hshData [(name, t)]) =
      .ok ((hshTable t).data.foldl (writeStep name cfg) db, []) := by
    show (match activeCfg db name with
      | none => Except.error (DbError.tableNotFound name)
      | some tableCfg =>
        let p := writeRowsLoop modelEngine name tableCfg db []
          (hshTable t).data
        writeTablesLoop modelEngine p.1 p.2 []) = _
    rw [hreg]
    dsimp only
    rw [writeRowsLoop_model name cfg (hshTable t).data db [] hfind]
    rfl
  show (throwWhenTablesDoNotExist db [(name, t)]).bind (fun _ =>
    (throwWhenTableDataDoesNotMatchCfg db [(name, t)]).bind (fun _ =>
      match writeTablesLoop modelEngine db [] (hshData [(name, t)]) with
      | .error e => .error e
      | .ok (db2, errs) =>
        if errs.length > 0 then
          .error (.jsError ("Errors occurred: " ++
            String.intercalate ", " errs))
        else .ok db2)) = _
  rw [h1, h2]
  show (match writeTablesLoop modelEngine db [] (hshData [(name, t)]) with
    | .error e => Except.error e
    | .ok (db2, errs) =>
      if errs.length > 0 then
        Except.error (DbError.jsError ("Errors occurred: " ++
          String.intercalate ", " errs))
      else .ok db2) = _
  rw [hloop]
  rfl

/-- C2.  Idempotent write: over the model engine executing the
`INSERT OR IGNORE` statement against the content-addressed physical
table (primary key `_hash`), writing the same Table twice leaves exactly
the stored state of the first write — a primary-key collision on the
repeated rows is a silent skip, contributes no error (both writes
return `ok`), and re-writes nothing, so row count and rows are
unchanged.  Hypotheses: the table is registered with active config
`cfg`, its physical table exists and carries the reserved `_hash`
primary-key column, and the request's rows fit the schema. -/
theorem C2_idempotent_write (db : Db) (name : String) (t : TableType)
    (cfg : TableCfg)
    (hreg : activeCfg db name = some cfg)
    (hfind : (db.tables.find?
      (fun p => p.1 = addTableSuffix name)).isSome = true)
    (hcols : hashColsOk name db)
    (hsub : t.data.all (fun r => rowMatchesCfg cfg r) = true) :
    ∃ db1, write modelEngine db [(name, t)] = .ok db1 ∧
      write modelEngine db1 [(name, t)] = .ok db1 := by
  refine ⟨(hshTable t).data.foldl (writeStep name cfg) db,
    write_single_model db name t cfg hreg hfind hsub, ?_⟩
  have hcfg1 : activeCfg ((hshTable t).data.foldl (writeStep name cfg) db)
      name = some cfg := by
    unfold activeCfg
    rw [foldl_writeStep_cfgs]
    exact hreg
  have hfind1 :=
    foldl_writeStep_find_isSome name cfg (hshTable t).data db hfind
  have hsecond := write_single_model
    ((hshTable t).data.foldl (writeStep name cfg) db) name t cfg hcfg1
    hfind1 hsub
  rw [hsecond, foldl_writeStep_skip name cfg (hshTable t).data _
    (hashColsOk_foldl name cfg (hshTable t).data db hcols)
    (rowStored_foldl_all name cfg (hshTable t).data db hcols)]

/-- Concrete instance of C2 with every hypothesis discharged by
evaluation: writing Alice and Bob into the registered `users` table
twice returns `ok` both times and the second write leaves the database
of the first write unchanged. -/
theorem C2_idempotent_write_witness :
    ∃ db1, write modelEngine dbUsers (usersWrite [rowAlice, rowBob]) =
        .ok db1 ∧
      write modelEngine db1 (usersWrite [rowAlice, rowBob]) = .ok db1 :=
  C2_idempotent_write dbUsers "users"
    { type := "rows", data := [rowAlice, rowBob], tableCfgHash := none,
      hash := none }
    (hshCfg usersCfg) (by decide) (by decide)
    (by unfold hashColsOk; decide) (by decide)
